import Mathlib

/-!
Verification of the torrent-cleaner decoding/validation core
(`src/torrent.rs`) against its natural-language specification.

The development is a shallow embedding of the Rust code:

* Byte buffers are `List Nat` (one `Nat` per byte).
* `Box<str>` fields are kept as their raw UTF-8 byte lists; the parser
  enforces UTF-8 validity exactly where the Rust code calls
  `String::from_bencode`.
* `u64` is `Nat`, with the `0 ≤ v < 2^64` range enforced by `toU64`
  exactly where the Rust code calls `u64::from_bencode`.
* Fallible code returns `Res α`; a Rust `panic!` (a process abort, not a
  returned error) is modelled by the distinguished outcome `Res.aborted`.
* The bendy `Decoder`/`DictDecoder` streaming layer is materialised: the
  primitive decoder produces a generic value tree (`Bval`) and the schema
  mappers walk the list of already-decoded key/value pairs.  On inputs
  whose primitive layer is well formed this agrees with the streaming
  composition in the Rust code.
-/

set_option maxRecDepth 100000

/-- Generic bencode value: byte string, integer, ordered list, or
dictionary given as its key/value pairs in buffer order.  Mirrors
bendy's `Object` as consumed by `torrent.rs`. -/
inductive Bval where
  | bytes (s : List Nat)
  | int (v : Int)
  | list (l : List Bval)
  | dict (l : List (List Nat × Bval))
deriving Repr

/-- Errors of the primitive (bendy) decoding layer, plus the failures of
`String::from_bencode` (`badUtf8`) and `u64::from_bencode` (`badNum`)
which the Rust code wraps as `BendyError` values. -/
inductive BErr where
  | truncated
  | badInt
  | badLen
  | nestingTooDeep
  | unexpected
  | nonStringKey
  | outOfFuel
  | badUtf8
  | badNum
deriving Repr, DecidableEq

/-- A returned error: either a wrapped bendy-layer error (`map_err(BendyError)`)
or an `anyhow!` message produced by `torrent.rs` itself. -/
inductive PErr where
  | bendy (e : BErr)
  | msg (s : String)
deriving Repr, DecidableEq

/-- Outcome of running a fallible piece of the Rust code: a returned value,
a returned error, or a `panic!` (process abort).  The third constructor is
kept separate from `err` because `torrent.rs` panics on duplicate
dictionary keys instead of returning an error. -/
inductive Res (α : Type) where
  | ok (a : α)
  | err (e : PErr)
  | aborted (m : String)
deriving Repr

/-- Continuation byte of a multi-byte UTF-8 sequence (`0x80..=0xBF`). -/
def isCont (b : Nat) : Bool := 128 ≤ b && b ≤ 191

/-- Modelled from the spec and Rust std semantics: the UTF-8 validity
check performed by `String::from_utf8` (which `String::from_bencode`
calls); its source is not part of this repository.  Accepts exactly
well-formed UTF-8: no overlong encodings, no surrogates, no code points
above U+10FFFF. -/
def utf8Valid : List Nat → Bool
  | [] => true
  | b :: t =>
    if b ≤ 127 then utf8Valid t
    else if b < 194 then false
    else if b ≤ 223 then
      match t with
      | b1 :: t2 => isCont b1 && utf8Valid t2
      | [] => false
    else if b = 224 then
      match t with
      | b1 :: b2 :: t2 => (160 ≤ b1 && b1 ≤ 191) && isCont b2 && utf8Valid t2
      | _ => false
    else if b ≤ 236 then
      match t with
      | b1 :: b2 :: t2 => isCont b1 && isCont b2 && utf8Valid t2
      | _ => false
    else if b = 237 then
      match t with
      | b1 :: b2 :: t2 => (128 ≤ b1 && b1 ≤ 159) && isCont b2 && utf8Valid t2
      | _ => false
    else if b ≤ 239 then
      match t with
      | b1 :: b2 :: t2 => isCont b1 && isCont b2 && utf8Valid t2
      | _ => false
    else if b = 240 then
      match t with
      | b1 :: b2 :: b3 :: t2 => (144 ≤ b1 && b1 ≤ 191) && isCont b2 && isCont b3 && utf8Valid t2
      | _ => false
    else if b ≤ 243 then
      match t with
      | b1 :: b2 :: b3 :: t2 => isCont b1 && isCont b2 && isCont b3 && utf8Valid t2
      | _ => false
    else if b = 244 then
      match t with
      | b1 :: b2 :: b3 :: t2 => (128 ≤ b1 && b1 ≤ 143) && isCont b2 && isCont b3 && utf8Valid t2
      | _ => false
    else false

/-- The byte string "announce". -/
def keyAnnounce : List Nat := [97, 110, 110, 111, 117, 110, 99, 101]

/-- The byte string "info". -/
def keyInfo : List Nat := [105, 110, 102, 111]

/-- The byte string "name". -/
def keyName : List Nat := [110, 97, 109, 101]

/-- The byte string "piece_length". -/
def keyPieceLength : List Nat := [112, 105, 101, 99, 101, 95, 108, 101, 110, 103, 116, 104]

/-- The byte string "pieces". -/
def keyPieces : List Nat := [112, 105, 101, 99, 101, 115]

/-- The byte string "length". -/
def keyLength : List Nat := [108, 101, 110, 103, 116, 104]

/-- The byte string "files". -/
def keyFiles : List Nat := [102, 105, 108, 101, 115]

/-- The byte string "path". -/
def keyPath : List Nat := [112, 97, 116, 104]

/-- The byte string "comment" (an unrecognized vendor-extension key used
in examples). -/
def keyComment : List Nat := [99, 111, 109, 109, 101, 110, 116]

/-- Longest prefix of ASCII decimal digits, together with the rest. -/
def takeDigits : List Nat → List Nat × List Nat
  | [] => ([], [])
  | c :: t =>
    if 48 ≤ c ∧ c ≤ 57 then (c :: (takeDigits t).1, (takeDigits t).2)
    else ([], c :: t)

/-- Value of a list of ASCII decimal digit bytes. -/
def digitsToNat (l : List Nat) : Nat := l.foldl (fun a c => a * 10 + (c - 48)) 0

/-- Shared validation of a span of digits `ds` followed by rest `r`, for
an integer primitive: digits non-empty, no leading zero except the
literal `0` (and no `-0` at all when negative), and a terminating `e`.
Returns the signed value and the rest after the terminator. -/
def intSign (neg : Bool) (n : Nat) : Int :=
  if neg then -(n : Int) else (n : Int)

def intFromDigits (neg : Bool) (ds : List Nat) (r : List Nat) : Option (Int × List Nat) :=
  if ds.length = 0 then none
  else if neg ∧ ds.head? = some 48 then none
  else if neg = false ∧ 1 < ds.length ∧ ds.head? = some 48 then none
  else if r.head? = some 101 then some (intSign neg (digitsToNat ds), r.tail)
  else none

/-- Modelled from the spec (bendy's integer primitive is not part of this
repository): the digits between `i` and `e`, with an optional leading
minus sign, no leading zeros except the literal `0`, and no `-0`.
Receives the bytes after the `i`. -/
def intCore (s : List Nat) : Option (Int × List Nat) :=
  if s.head? = some 45 then intFromDigits true (takeDigits s.tail).1 (takeDigits s.tail).2
  else intFromDigits false (takeDigits s).1 (takeDigits s).2

/-- Modelled from the spec (bendy's byte-string primitive is not part of
this repository): `<decimal-length>:<raw-bytes>`, the length a decimal
with no leading zero except the literal `0`, failing if the declared
length exceeds the remaining buffer.  Returns the contents and the rest
of the buffer. -/
def bytesCore (s : List Nat) : Option (List Nat × List Nat) :=
  if (takeDigits s).1.length = 0 then none
  else if 1 < (takeDigits s).1.length ∧ (takeDigits s).1.head? = some 48 then none
  else if (takeDigits s).2.head? = some 58 then
    if digitsToNat (takeDigits s).1 ≤ (takeDigits s).2.tail.length then
      some ((takeDigits s).2.tail.take (digitsToNat (takeDigits s).1),
        (takeDigits s).2.tail.drop (digitsToNat (takeDigits s).1))
    else none
  else none

mutual

/-- Modelled from the spec (bendy's recursive-descent decoder is not part
of this repository): decode one generic value from the front of the
buffer.  `depth` is the current container nesting depth and `maxD` the
configured maximum; entering a list or dictionary at `depth ≥ maxD`
yields the `nestingTooDeep` error.  `fuel` is an artifact of the
embedding; the callers below always pass enough of it. -/
def decodeVal : Nat → Nat → Nat → List Nat → Except BErr (Bval × List Nat)
  | 0, _, _, _ => .error .outOfFuel
  | fuel + 1, depth, maxD, s =>
    match s with
    | [] => .error .truncated
    | c :: t =>
      if c = 105 then
        match intCore t with
        | some (v, r) => .ok (.int v, r)
        | none => .error .badInt
      else if 48 ≤ c ∧ c ≤ 57 then
        match bytesCore (c :: t) with
        | some (b, r) => .ok (.bytes b, r)
        | none => .error .badLen
      else if c = 108 then
        if maxD ≤ depth then .error .nestingTooDeep
        else
          match decodeItems fuel (depth + 1) maxD t with
          | .ok (l, r) => .ok (.list l, r)
          | .error e => .error e
      else if c = 100 then
        if maxD ≤ depth then .error .nestingTooDeep
        else
          match decodePairs fuel (depth + 1) maxD t with
          | .ok (l, r) => .ok (.dict l, r)
          | .error e => .error e
      else .error .unexpected
termination_by structural fuel _ _ _ => fuel

/-- List elements until the terminator byte `e`. -/
def decodeItems : Nat → Nat → Nat → List Nat → Except BErr (List Bval × List Nat)
  | 0, _, _, _ => .error .outOfFuel
  | fuel + 1, depth, maxD, s =>
    match s with
    | [] => .error .truncated
    | c :: t =>
      if c = 101 then .ok ([], t)
      else
        match decodeVal fuel depth maxD (c :: t) with
        | .ok (v, r) =>
          match decodeItems fuel depth maxD r with
          | .ok (l, r2) => .ok (v :: l, r2)
          | .error e => .error e
        | .error e => .error e
termination_by structural fuel _ _ _ => fuel

/-- Dictionary key/value pairs until the terminator byte `e`; keys must
be byte strings. -/
def decodePairs : Nat → Nat → Nat → List Nat → Except BErr (List (List Nat × Bval) × List Nat)
  | 0, _, _, _ => .error .outOfFuel
  | fuel + 1, depth, maxD, s =>
    match s with
    | [] => .error .truncated
    | c :: t =>
      if c = 101 then .ok ([], t)
      else if 48 ≤ c ∧ c ≤ 57 then
        match bytesCore (c :: t) with
        | some (k, r) =>
          match decodeVal fuel depth maxD r with
          | .ok (v, r2) =>
            match decodePairs fuel depth maxD r2 with
            | .ok (l, r3) => .ok ((k, v) :: l, r3)
            | .error e => .error e
          | .error e => .error e
        | none => .error .badLen
      else .error .nonStringKey
termination_by structural fuel _ _ _ => fuel

end

/-- The value of `usize::MAX` on the 64-bit targets the crate is built
for; `TorrentFile::parse_torrent` passes it to `with_max_depth`. -/
def usizeMax : Nat := 2 ^ 64 - 1

/-- Models `Decoder::next_object`: `none` at end of input, otherwise one
decoded value and the remaining buffer. -/
def nextObject (maxD : Nat) (s : List Nat) : Except BErr (Option (Bval × List Nat)) :=
  match s with
  | [] => .ok none
  | _ =>
    match decodeVal (2 * s.length + 2) 0 maxD s with
    | .ok (v, r) => .ok (some (v, r))
    | .error e => .error e

/-- Models `u64::from_bencode` on an integer whose mathematical value is
`v`: succeeds exactly when the value fits in an unsigned 64-bit integer,
and never wraps or truncates. -/
def toU64 (v : Int) : Except BErr Nat :=
  if 0 ≤ v ∧ v < (2 : Int) ^ 64 then .ok v.toNat else .error .badNum

/-- One file entry of a multi-file descriptor (`FileListItem` in
`torrent.rs`): a length in bytes and a path as a list of UTF-8 segments
(kept as their raw bytes). -/
structure FileListItem where
  length : Nat
  path : List (List Nat)
deriving Repr

/-- The `FileListUnion` enum of `torrent.rs`. -/
inductive FileListUnion where
  | Single (length : Nat)
  | Multiple (list : List FileListItem)
deriving Repr

/-- The `MetaFileInfo` struct of `torrent.rs`; `pieces` is the list of
20-byte hash chunks. -/
structure MetaFileInfo where
  name : List Nat
  piece_length : Nat
  pieces : List (List Nat)
  file_list : FileListUnion
deriving Repr

/-- The `TorrentFile` struct of `torrent.rs`. -/
structure TorrentFile where
  announce : List Nat
  info : MetaFileInfo
deriving Repr

/-- Short-circuiting fold threading the mutable accumulator state of a
`while let Some((k, v)) = dict.next_pair()` loop through `Res`. -/
def resFold {σ π : Type} (step : σ → π → Res σ) : List π → σ → Res σ
  | [], st => .ok st
  | x :: l, st =>
    match step st x with
    | .ok st2 => resFold step l st2
    | .err e => .err e
    | .aborted m => .aborted m

/-- Models `s.split_first_chunk::<20>()`. -/
def splitFirstChunk (s : List Nat) : Option (List Nat × List Nat) :=
  if 20 ≤ s.length then some (s.take 20, s.drop 20) else none

/-- The chunking loop `for _i in 0..(length / 20)` of
`MetaFileInfo::parse_torrent` (lines 172-178): peel off `n` chunks of 20
bytes; the `.expect` on a failed split is a panic. -/
def piecesLoop : Nat → List Nat → Res (List (List Nat))
  | 0, _ => .ok []
  | n + 1, s =>
    match splitFirstChunk s with
    | some (a, b) =>
      match piecesLoop n b with
      | .ok l => .ok (a :: l)
      | .err e => .err e
      | .aborted m => .aborted m
    | none => .aborted "pieces in length of multiple of 20"

/-- The `pieces` branch of `MetaFileInfo::parse_torrent` (lines 166-179):
reject a byte length that is not a multiple of 20, then chunk. -/
def piecesOf (s : List Nat) : Res (List (List Nat)) :=
  if s.length % 20 ≠ 0 then .err (.msg "Invalid \"pieces\" data length")
  else piecesLoop (s.length / 20) s

/-- The `path` list loop of `FileListItem::parse_torrent` (lines 254-265):
every element must be a byte string holding valid UTF-8. -/
def pathOf : List Bval → Res (List (List Nat))
  | [] => .ok []
  | .bytes s :: rest =>
    if utf8Valid s then
      match pathOf rest with
      | .ok l => .ok (s :: l)
      | .err e => .err e
      | .aborted m => .aborted m
    else .err (.bendy .badUtf8)
  | _ :: _ => .err (.msg "Invalid \"path\" element data type")

/-- Accumulator of the `FileListItem::parse_torrent` loop: the two local
`Option` variables `length` and `path`. -/
structure FileAcc where
  length : Option Nat
  path : Option (List (List Nat))
deriving Repr

/-- One iteration of the `FileListItem::parse_torrent` loop
(lines 241-270): decode the key as text, handle `length` and `path`
(panicking on a duplicate), and silently skip any other key. -/
def fileStep (st : FileAcc) (kv : List Nat × Bval) : Res FileAcc :=
  if utf8Valid kv.1 = false then .err (.bendy .badUtf8)
  else if kv.1 = keyLength then
    if st.length.isSome then .aborted "Duplicate key in dictionary"
    else
      match kv.2 with
      | .int v =>
        match toU64 v with
        | .ok n => .ok { st with length := some n }
        | .error e => .err (.bendy e)
      | _ => .err (.msg "Invalid \"length\" data type")
  else if kv.1 = keyPath then
    if st.path.isSome then .aborted "Duplicate key in dictionary"
    else
      match kv.2 with
      | .list l =>
        match pathOf l with
        | .ok p => .ok { st with path := some p }
        | .err e => .err e
        | .aborted m => .aborted m
      | _ => .err (.msg "Invalid \"path\" data type")
  else .ok st

/-- Models `FileListItem::parse_torrent` (lines 238-275) on the decoded
key/value pairs of one `files` entry dictionary. -/
def FileListItem.parse_torrent (pairs : List (List Nat × Bval)) : Res FileListItem :=
  match resFold fileStep pairs ⟨none, none⟩ with
  | .ok st =>
    match st.length with
    | none => .err (.msg "Key \"length\" is missing in dictionary")
    | some len =>
      match st.path with
      | none => .err (.msg "Key \"path\" is missing in dictionary")
      | some p => .ok ⟨len, p⟩
  | .err e => .err e
  | .aborted m => .aborted m

/-- The `files` list loop of `MetaFileInfo::parse_torrent`
(lines 195-206): every element must be a dictionary, parsed as a
`FileListItem`, in order. -/
def filesOf : List Bval → Res (List FileListItem)
  | [] => .ok []
  | .dict d :: rest =>
    match FileListItem.parse_torrent d with
    | .ok fi =>
      match filesOf rest with
      | .ok l => .ok (fi :: l)
      | .err e => .err e
      | .aborted m => .aborted m
    | .err e => .err e
    | .aborted m => .aborted m
  | _ :: _ => .err (.msg "Invalid \"files\" element data type")

/-- Accumulator of the `MetaFileInfo::parse_torrent` loop: the four local
`Option` variables (`length` and `files` share the `file_list` slot). -/
structure InfoAcc where
  name : Option (List Nat)
  piece_length : Option Nat
  pieces : Option (List (List Nat))
  file_list : Option FileListUnion
deriving Repr

/-- One iteration of the `MetaFileInfo::parse_torrent` loop
(lines 145-213): decode the key as text, handle the five recognized keys
(panicking on a duplicate of an already-filled slot, including the shared
`length`/`files` slot), and silently skip any other key
(`throw_bencode_redundant_key!` expands to nothing). -/
def infoStep (st : InfoAcc) (kv : List Nat × Bval) : Res InfoAcc :=
  if utf8Valid kv.1 = false then .err (.bendy .badUtf8)
  else if kv.1 = keyName then
    if st.name.isSome then .aborted "Duplicate key in dictionary"
    else
      match kv.2 with
      | .bytes s =>
        if utf8Valid s then .ok { st with name := some s }
        else .err (.bendy .badUtf8)
      | _ => .err (.msg "Invalid \"name\" data type")
  else if kv.1 = keyPieceLength then
    if st.piece_length.isSome then .aborted "Duplicate key in dictionary"
    else
      match kv.2 with
      | .int v =>
        match toU64 v with
        | .ok n => .ok { st with piece_length := some n }
        | .error e => .err (.bendy e)
      | _ => .err (.msg "Invalid \"piece_length\" data type")
  else if kv.1 = keyPieces then
    if st.pieces.isSome then .aborted "Duplicate key in dictionary"
    else
      match kv.2 with
      | .bytes s =>
        match piecesOf s with
        | .ok l => .ok { st with pieces := some l }
        | .err e => .err e
        | .aborted m => .aborted m
      | _ => .err (.msg "Invalid \"pieces\" data type")
  else if kv.1 = keyLength then
    if st.file_list.isSome then .aborted "Duplicate key in dictionary"
    else
      match kv.2 with
      | .int v =>
        match toU64 v with
        | .ok n => .ok { st with file_list := some (.Single n) }
        | .error e => .err (.bendy e)
      | _ => .err (.msg "Invalid \"length\" data type")
  else if kv.1 = keyFiles then
    if st.file_list.isSome then .aborted "Duplicate key in dictionary"
    else
      match kv.2 with
      | .list l =>
        match filesOf l with
        | .ok fl => .ok { st with file_list := some (.Multiple fl) }
        | .err e => .err e
        | .aborted m => .aborted m
      | _ => .err (.msg "Invalid \"files\" data type")
  else .ok st

/-- Models `MetaFileInfo::parse_torrent` (lines 140-221) on the decoded
key/value pairs of the `info` dictionary: run the loop, then report the
first missing required key (the `anyhow` context wrapper added by the
caller is dropped in this embedding). -/
def MetaFileInfo.parse_torrent (pairs : List (List Nat × Bval)) : Res MetaFileInfo :=
  match resFold infoStep pairs ⟨none, none, none, none⟩ with
  | .ok st =>
    match st.name with
    | none => .err (.msg "Key \"name\" is missing")
    | some nm =>
      match st.piece_length with
      | none => .err (.msg "Key \"piece_length\" is missing")
      | some pl =>
        match st.pieces with
        | none => .err (.msg "Key \"pieces\" is missing")
        | some ps =>
          match st.file_list with
          | none => .err (.msg "Key \"length\" or \"files\" is missing")
          | some fl => .ok ⟨nm, pl, ps, fl⟩
  | .err e => .err e
  | .aborted m => .aborted m

/-- One iteration of the top-level `TorrentFile::parse_torrent` loop
(lines 54-77) over the state pair (announce, info): handle `announce` and
`info` (panicking on a duplicate), and silently skip any other key. -/
def topStep (st : Option (List Nat) × Option MetaFileInfo) (kv : List Nat × Bval) :
    Res (Option (List Nat) × Option MetaFileInfo) :=
  if utf8Valid kv.1 = false then .err (.bendy .badUtf8)
  else if kv.1 = keyAnnounce then
    if st.1.isSome then .aborted "Duplicate key in dictionary"
    else
      match kv.2 with
      | .bytes s =>
        if utf8Valid s then .ok (some s, st.2)
        else .err (.bendy .badUtf8)
      | _ => .err (.msg "Invalid \"announce\" data type")
  else if kv.1 = keyInfo then
    if st.2.isSome then .aborted "Duplicate key in dictionary"
    else
      match kv.2 with
      | .dict d =>
        match MetaFileInfo.parse_torrent d with
        | .ok mi => .ok (st.1, some mi)
        | .err e => .err e
        | .aborted m => .aborted m
      | _ => .err (.msg "Invalid \"info\" data type")
  else .ok st

/-- The schema mapper of `TorrentFile::parse_torrent` restricted to an
already-decoded top-level dictionary: run the key loop from the empty
state and then check the required keys, with the error messages of
`check_bencode_key_missing!`.  `TorrentFile.parse_torrent` below threads
the same pieces around its trailing-data check. -/
def mapTorrent (pairs : List (List Nat × Bval)) : Res TorrentFile :=
  match resFold topStep pairs (none, none) with
  | .ok st =>
    match st.1 with
    | none => .err (.msg "Key \"announce\" is missing in dictionary")
    | some an =>
      match st.2 with
      | none => .err (.msg "Key \"info\" is missing in dictionary")
      | some inf => .ok ⟨an, inf⟩
  | .err e => .err e
  | .aborted m => .aborted m

/-- Models `TorrentFile::parse_torrent` (lines 45-92): decode the single
top-level value with `with_max_depth(usize::MAX)`, require it to be a
dictionary, map it, require that no bytes remain (a second `next_object`
must yield `None`), then report missing required keys. -/
def TorrentFile.parse_torrent (buf : List Nat) : Res TorrentFile :=
  match nextObject usizeMax buf with
  | .error e => .err (.bendy e)
  | .ok none => .err (.msg "Metafile is empty")
  | .ok (some (.dict pairs, rest)) =>
    match resFold topStep pairs (none, none) with
    | .ok st =>
      match nextObject usizeMax rest with
      | .error e => .err (.bendy e)
      | .ok (some _) => .err (.msg "Metafile is malformed")
      | .ok none =>
        match st.1 with
        | none => .err (.msg "Key \"announce\" is missing in dictionary")
        | some an =>
          match st.2 with
          | none => .err (.msg "Key \"info\" is missing in dictionary")
          | some inf => .ok ⟨an, inf⟩
    | .err e => .err e
    | .aborted m => .aborted m
  | .ok (some _) => .err (.msg "Metafile is malformed")

/-- The per-entry check of the `for entry in list.iter()` loop of
`TorrentFile::validate_torrent` (lines 114-122), returning the first
failure. -/
def entriesValidate : List FileListItem → Option PErr
  | [] => none
  | e :: rest =>
    if e.path.length = 0 then
      some (.msg "Value \"info\".\"files\" element \"path\" is empty")
    else if e.length = 0 then
      some (.msg "Value \"info\".\"files\" element \"length\" is zero")
    else entriesValidate rest

/-- Models `TorrentFile::validate_torrent` (lines 94-127): the
post-construction invariant checks, in source order, returning the
unchanged value on success. -/
def TorrentFile.validate_torrent (t : TorrentFile) : Res TorrentFile :=
  if t.info.pieces.length = 0 then .err (.msg "Value \"info\".\"pieces\" is empty")
  else if t.info.piece_length = 0 then .err (.msg "Value \"info\".\"piece_length\" is zero")
  else
    match t.info.file_list with
    | .Single len =>
      if len = 0 then .err (.msg "Value \"info\".\"length\" is zero") else .ok t
    | .Multiple list =>
      if list.length = 0 then .err (.msg "Value \"info\".\"files\" is empty")
      else
        match entriesValidate list with
        | some e => .err e
        | none => .ok t

/-- Modelled from the spec: the validator as section 4.4 words it —
pieces non-empty, then piece_length nonzero, then the file-list-specific
checks (Single: length nonzero; Multiple: list non-empty, then each
entry checked in original order, path non-empty before length nonzero,
first failure reported), returning the same value when every invariant
holds. -/
def validateSpec (t : TorrentFile) : Res TorrentFile :=
  if t.info.pieces.length = 0 then .err (.msg "Value \"info\".\"pieces\" is empty")
  else if t.info.piece_length = 0 then .err (.msg "Value \"info\".\"piece_length\" is zero")
  else
    match t.info.file_list with
    | .Single len =>
      if len = 0 then .err (.msg "Value \"info\".\"length\" is zero") else .ok t
    | .Multiple list =>
      if list.length = 0 then .err (.msg "Value \"info\".\"files\" is empty")
      else
        match entriesValidate list with
        | some e => .err e
        | none => .ok t

/-- The invariants of section 3 of the spec, as a decidable predicate. -/
def invariantsHold (t : TorrentFile) : Bool :=
  decide (t.info.pieces.length ≠ 0) &&
  decide (t.info.piece_length ≠ 0) &&
  (match t.info.file_list with
   | .Single len => decide (len ≠ 0)
   | .Multiple list =>
     decide (list.length ≠ 0) &&
     list.all (fun e => decide (e.path.length ≠ 0) && decide (e.length ≠ 0)))

/-! ## Helper lemmas -/

theorem entriesValidate_eq_none (l : List FileListItem) :
    entriesValidate l = none ↔ ∀ e ∈ l, e.path.length ≠ 0 ∧ e.length ≠ 0 := by
  induction l with
  | nil => simp [entriesValidate]
  | cons e rest ih =>
    unfold entriesValidate
    by_cases hp : e.path.length = 0
    · rw [if_pos hp]
      constructor
      · intro h
        cases h
      · intro h
        exact absurd hp (h e (List.mem_cons_self e rest)).1
    · rw [if_neg hp]
      by_cases hl : e.length = 0
      · rw [if_pos hl]
        constructor
        · intro h
          cases h
        · intro h
          exact absurd hl (h e (List.mem_cons_self e rest)).2
      · rw [if_neg hl, ih]
        constructor
        · intro h x hx
          rcases List.mem_cons.mp hx with hx | hx
          · subst hx
            exact ⟨hp, hl⟩
          · exact h x hx
        · intro h x hx
          exact h x (List.mem_cons_of_mem e hx)

theorem piecesLoop_spec (n : Nat) :
    ∀ s : List Nat, s.length = 20 * n →
      ∃ l, piecesLoop n s = .ok l ∧ l.length = n ∧ l.flatten = s ∧ ∀ c ∈ l, c.length = 20 := by
  induction n with
  | zero =>
    intro s h
    have : s = [] := List.length_eq_zero.mp (by omega)
    subst this
    exact ⟨[], rfl, rfl, rfl, by simp⟩
  | succ n ih =>
    intro s h
    have h20 : 20 ≤ s.length := by omega
    have hsplit : splitFirstChunk s = some (s.take 20, s.drop 20) := by
      unfold splitFirstChunk
      rw [if_pos h20]
    obtain ⟨l, hl, hlen, hjoin, hall⟩ := ih (s.drop 20) (by simp; omega)
    refine ⟨s.take 20 :: l, ?_, by simp [hlen], ?_, ?_⟩
    · simp only [piecesLoop, hsplit, hl]
    · simp only [List.flatten_cons]
      rw [hjoin, List.take_append_drop]
    · intro c hc
      rcases List.mem_cons.mp hc with hc | hc
      · subst hc
        simp [List.length_take]
        omega
      · exact hall c hc

theorem takeDigits_rest_le (s : List Nat) : (takeDigits s).2.length ≤ s.length := by
  induction s with
  | nil => simp [takeDigits]
  | cons c t ih =>
    unfold takeDigits
    by_cases h : 48 ≤ c ∧ c ≤ 57
    · rw [if_pos h]
      exact le_trans ih (by simp)
    · rw [if_neg h]

theorem head_some_ne_nil {a : Nat} {l : List Nat} (h : l.head? = some a) : 1 ≤ l.length := by
  cases l with
  | nil => cases h
  | cons x t => simp

theorem intFromDigits_rest {neg : Bool} {ds r : List Nat} {v : Int} {r2 : List Nat}
    (h : intFromDigits neg ds r = some (v, r2)) : r2.length + 1 ≤ r.length := by
  unfold intFromDigits at h
  split_ifs at h with h1 h2 h3 h4
  · cases h
    have := head_some_ne_nil h4
    simp [List.length_tail]
    omega

theorem intCore_rest_lt (s : List Nat) (v : Int) (r : List Nat)
    (h : intCore s = some (v, r)) : r.length < s.length := by
  unfold intCore at h
  by_cases h45 : s.head? = some 45
  · rw [if_pos h45] at h
    have hA := takeDigits_rest_le s.tail
    have hs := head_some_ne_nil h45
    have hr := intFromDigits_rest h
    have ht : s.tail.length = s.length - 1 := by simp
    omega
  · rw [if_neg h45] at h
    have hA := takeDigits_rest_le s
    have hr := intFromDigits_rest h
    omega

theorem bytesCore_rest_lt (s : List Nat) (b : List Nat) (r : List Nat)
    (h : bytesCore s = some (b, r)) : r.length < s.length := by
  unfold bytesCore at h
  have hA := takeDigits_rest_le s
  split_ifs at h with h1 h2 h3 h4
  · cases h
    have h5 := head_some_ne_nil h3
    simp [List.length_tail]
    omega

theorem decode_rest_le (fuel : Nat) :
    (∀ d m s v r, decodeVal fuel d m s = .ok (v, r) → r.length ≤ s.length) ∧
    (∀ d m s l r, decodeItems fuel d m s = .ok (l, r) → r.length ≤ s.length) ∧
    (∀ d m s l r, decodePairs fuel d m s = .ok (l, r) → r.length ≤ s.length) := by
  induction fuel with
  | zero =>
    refine ⟨?_, ?_, ?_⟩ <;> (intro d m s v r h; simp [decodeVal, decodeItems, decodePairs] at h)
  | succ fuel ih =>
    obtain ⟨ihV, ihI, ihP⟩ := ih
    refine ⟨?_, ?_, ?_⟩
    · intro d m s v r h
      rcases s with _ | ⟨c, t⟩
      · simp [decodeVal] at h
      · simp only [decodeVal] at h
        by_cases hc1 : c = 105
        · rw [if_pos hc1] at h
          rcases hi : intCore t with _ | ⟨v2, r2⟩
          · rw [hi] at h
            dsimp only at h
            cases h
          · rw [hi] at h
            dsimp only at h
            cases h
            exact le_of_lt (lt_of_lt_of_le (intCore_rest_lt t _ _ hi) (by simp))
        · rw [if_neg hc1] at h
          by_cases hc2 : 48 ≤ c ∧ c ≤ 57
          · rw [if_pos hc2] at h
            rcases hb : bytesCore (c :: t) with _ | ⟨b2, r2⟩
            · rw [hb] at h
              dsimp only at h
              cases h
            · rw [hb] at h
              dsimp only at h
              cases h
              exact le_of_lt (bytesCore_rest_lt (c :: t) _ _ hb)
          · rw [if_neg hc2] at h
            by_cases hc3 : c = 108
            · rw [if_pos hc3] at h
              by_cases hd : m ≤ d
              · rw [if_pos hd] at h
                cases h
              · rw [if_neg hd] at h
                rcases hit : decodeItems fuel (d + 1) m t with e | ⟨l2, r2⟩
                · rw [hit] at h
                  dsimp only at h
                  cases h
                · rw [hit] at h
                  dsimp only at h
                  cases h
                  exact le_trans (ihI (d + 1) m t _ _ hit) (by simp)
            · rw [if_neg hc3] at h
              by_cases hc4 : c = 100
              · rw [if_pos hc4] at h
                by_cases hd : m ≤ d
                · rw [if_pos hd] at h
                  cases h
                · rw [if_neg hd] at h
                  rcases hit : decodePairs fuel (d + 1) m t with e | ⟨l2, r2⟩
                  · rw [hit] at h
                    dsimp only at h
                    cases h
                  · rw [hit] at h
                    dsimp only at h
                    cases h
                    exact le_trans (ihP (d + 1) m t _ _ hit) (by simp)
              · rw [if_neg hc4] at h
                cases h
    · intro d m s l r h
      rcases s with _ | ⟨c, t⟩
      · simp [decodeItems] at h
      · simp only [decodeItems] at h
        by_cases hc : c = 101
        · rw [if_pos hc] at h
          cases h
          simp
        · rw [if_neg hc] at h
          rcases hv : decodeVal fuel d m (c :: t) with e | ⟨v2, r2⟩
          · rw [hv] at h
            dsimp only at h
            cases h
          · rw [hv] at h
            dsimp only at h
            rcases hit : decodeItems fuel d m r2 with e | ⟨l2, r3⟩
            · rw [hit] at h
              dsimp only at h
              cases h
            · rw [hit] at h
              dsimp only at h
              cases h
              exact le_trans (ihI d m r2 _ _ hit) (ihV d m (c :: t) _ _ hv)
    · intro d m s l r h
      rcases s with _ | ⟨c, t⟩
      · simp [decodePairs] at h
      · simp only [decodePairs] at h
        by_cases hc : c = 101
        · rw [if_pos hc] at h
          cases h
          simp
        · rw [if_neg hc] at h
          by_cases hc2 : 48 ≤ c ∧ c ≤ 57
          · rw [if_pos hc2] at h
            rcases hb : bytesCore (c :: t) with _ | ⟨k2, r2⟩
            · rw [hb] at h
              dsimp only at h
              cases h
            · rw [hb] at h
              dsimp only at h
              rcases hv : decodeVal fuel d m r2 with e | ⟨v2, r3⟩
              · rw [hv] at h
                dsimp only at h
                cases h
              · rw [hv] at h
                dsimp only at h
                rcases hit : decodePairs fuel d m r3 with e | ⟨l2, r4⟩
                · rw [hit] at h
                  dsimp only at h
                  cases h
                · rw [hit] at h
                  dsimp only at h
                  cases h
                  exact le_trans (ihP d m r3 _ _ hit)
                    (le_trans (ihV d m r2 _ _ hv)
                      (le_of_lt (bytesCore_rest_lt (c :: t) _ _ hb)))
          · rw [if_neg hc2] at h
            cases h

theorem decode_no_deep (fuel : Nat) :
    (∀ d m s, d + s.length ≤ m → decodeVal fuel d m s ≠ .error .nestingTooDeep) ∧
    (∀ d m s, d + s.length ≤ m → decodeItems fuel d m s ≠ .error .nestingTooDeep) ∧
    (∀ d m s, d + s.length ≤ m → decodePairs fuel d m s ≠ .error .nestingTooDeep) := by
  induction fuel with
  | zero =>
    refine ⟨?_, ?_, ?_⟩ <;> (intro d m s hdm h; simp [decodeVal, decodeItems, decodePairs] at h)
  | succ fuel ih =>
    obtain ⟨ihV, ihI, ihP⟩ := ih
    refine ⟨?_, ?_, ?_⟩
    · intro d m s hdm h
      rcases s with _ | ⟨c, t⟩
      · simp [decodeVal] at h
      · simp only [List.length_cons] at hdm
        simp only [decodeVal] at h
        by_cases hc1 : c = 105
        · rw [if_pos hc1] at h
          rcases hi : intCore t with _ | ⟨v2, r2⟩ <;> rw [hi] at h <;> dsimp only at h <;> cases h
        · rw [if_neg hc1] at h
          by_cases hc2 : 48 ≤ c ∧ c ≤ 57
          · rw [if_pos hc2] at h
            rcases hb : bytesCore (c :: t) with _ | ⟨b2, r2⟩ <;> rw [hb] at h <;>
              dsimp only at h <;> cases h
          · rw [if_neg hc2] at h
            by_cases hc3 : c = 108
            · rw [if_pos hc3] at h
              rw [if_neg (by omega)] at h
              rcases hit : decodeItems fuel (d + 1) m t with e | ⟨l2, r2⟩
              · rw [hit] at h
                dsimp only at h
                cases h
                exact ihI (d + 1) m t (by omega) hit
              · rw [hit] at h
                dsimp only at h
                cases h
            · rw [if_neg hc3] at h
              by_cases hc4 : c = 100
              · rw [if_pos hc4] at h
                rw [if_neg (by omega)] at h
                rcases hit : decodePairs fuel (d + 1) m t with e | ⟨l2, r2⟩
                · rw [hit] at h
                  dsimp only at h
                  cases h
                  exact ihP (d + 1) m t (by omega) hit
                · rw [hit] at h
                  dsimp only at h
                  cases h
              · rw [if_neg hc4] at h
                cases h
    · intro d m s hdm h
      rcases s with _ | ⟨c, t⟩
      · simp [decodeItems] at h
      · simp only [List.length_cons] at hdm
        simp only [decodeItems] at h
        by_cases hc : c = 101
        · rw [if_pos hc] at h
          cases h
        · rw [if_neg hc] at h
          rcases hv : decodeVal fuel d m (c :: t) with e | ⟨v2, r2⟩
          · rw [hv] at h
            dsimp only at h
            cases h
            exact ihV d m (c :: t) (by simp; omega) hv
          · rw [hv] at h
            dsimp only at h
            have hr2 : r2.length ≤ t.length + 1 := by
              have := (decode_rest_le fuel).1 d m (c :: t) _ _ hv
              simpa using this
            rcases hit : decodeItems fuel d m r2 with e | ⟨l2, r3⟩
            · rw [hit] at h
              dsimp only at h
              cases h
              exact ihI d m r2 (by omega) hit
            · rw [hit] at h
              dsimp only at h
              cases h
    · intro d m s hdm h
      rcases s with _ | ⟨c, t⟩
      · simp [decodePairs] at h
      · simp only [List.length_cons] at hdm
        simp only [decodePairs] at h
        by_cases hc : c = 101
        · rw [if_pos hc] at h
          cases h
        · rw [if_neg hc] at h
          by_cases hc2 : 48 ≤ c ∧ c ≤ 57
          · rw [if_pos hc2] at h
            rcases hb : bytesCore (c :: t) with _ | ⟨k2, r2⟩
            · rw [hb] at h
              dsimp only at h
              cases h
            · rw [hb] at h
              dsimp only at h
              have hr2 : r2.length < t.length + 1 := by
                have := bytesCore_rest_lt (c :: t) _ _ hb
                simpa using this
              rcases hv : decodeVal fuel d m r2 with e | ⟨v2, r3⟩
              · rw [hv] at h
                dsimp only at h
                cases h
                exact ihV d m r2 (by omega) hv
              · rw [hv] at h
                dsimp only at h
                have hr3 : r3.length ≤ r2.length := (decode_rest_le fuel).1 d m r2 _ _ hv
                rcases hit : decodePairs fuel d m r3 with e | ⟨l2, r4⟩
                · rw [hit] at h
                  dsimp only at h
                  cases h
                  exact ihP d m r3 (by omega) hit
                · rw [hit] at h
                  dsimp only at h
                  cases h
          · rw [if_neg hc2] at h
            cases h

/-- Nested singleton lists of the given depth, the value decoded from a
buffer of that many `l` bytes followed by as many `e` bytes. -/
def nestedList : Nat → Bval
  | 0 => .list []
  | n + 1 => .list [nestedList n]

/-! ## Claim theorems -/

/-- C1: on a dictionary in which a recognized key (here "piece_length")
appears twice, `MetaFileInfo::parse_torrent` does NOT return a duplicate
key error through the normal error path: it panics, aborting the
process.  The spec flags this abort as the defect to correct, so the
claim is recorded as a code bug; this theorem evaluates the code at the
failing input. -/
theorem duplicate_key_aborts :
    MetaFileInfo.parse_torrent [(keyPieceLength, .int 16384), (keyPieceLength, .int 16384)] =
      .aborted "Duplicate key in dictionary" := rfl

/-- C2: an `info` dictionary containing both "length" and "files" does
not fail with a returned mutually-exclusive-key error: the second of the
two keys trips the duplicate-slot panic and aborts the process.  The
neither-present case does return the dedicated missing error naming
"length"/"files".  This theorem evaluates the code at both inputs. -/
theorem length_files_exclusivity :
    MetaFileInfo.parse_torrent [(keyLength, .int 100), (keyFiles, .list [])] =
      .aborted "Duplicate key in dictionary" ∧
    MetaFileInfo.parse_torrent
        [(keyName, .bytes [112, 107, 103]), (keyPieceLength, .int 16384),
         (keyPieces, .bytes (List.replicate 20 0))] =
      .err (.msg "Key \"length\" or \"files\" is missing") := ⟨rfl, rfl⟩

/-- C4: the validator is a pure function returning exactly the unchanged
input when the section-3 invariants hold, agreeing check-for-check with
the order the spec prescribes (`validateSpec`), and never returning any
other value. -/
theorem validator_correct (t : TorrentFile) :
    t.validate_torrent = validateSpec t ∧
    (t.validate_torrent = .ok t ↔ invariantsHold t = true) ∧
    (∀ u, t.validate_torrent = .ok u → u = t) := by
  obtain ⟨an, nm, pl, ps, fl⟩ := t
  refine ⟨rfl, ?_, ?_⟩
  · cases fl with
    | Single len =>
      by_cases h1 : ps.length = 0
      · exact iff_of_false (by simp [TorrentFile.validate_torrent, h1])
          (by simp [invariantsHold, h1])
      · by_cases h2 : pl = 0
        · exact iff_of_false (by simp [TorrentFile.validate_torrent, h1, h2])
            (by simp [invariantsHold, h1, h2])
        · by_cases h3 : len = 0
          · exact iff_of_false (by simp [TorrentFile.validate_torrent, h1, h2, h3])
              (by simp [invariantsHold, h1, h2, h3])
          · exact iff_of_true (by simp [TorrentFile.validate_torrent, h1, h2, h3])
              (by simp [invariantsHold, h1, h2, h3])
    | Multiple list =>
      by_cases h1 : ps.length = 0
      · exact iff_of_false (by simp [TorrentFile.validate_torrent, h1])
          (by simp [invariantsHold, h1])
      · by_cases h2 : pl = 0
        · exact iff_of_false (by simp [TorrentFile.validate_torrent, h1, h2])
            (by simp [invariantsHold, h1, h2])
        · by_cases h3 : list.length = 0
          · exact iff_of_false (by simp [TorrentFile.validate_torrent, h1, h2, h3])
              (by simp [invariantsHold, h1, h2, h3])
          · cases hev : entriesValidate list with
            | some e =>
              have hne : ¬ ∀ x ∈ list, x.path.length ≠ 0 ∧ x.length ≠ 0 := by
                intro hall
                rw [(entriesValidate_eq_none list).mpr hall] at hev
                cases hev
              refine iff_of_false (by simp [TorrentFile.validate_torrent, h1, h2, h3, hev]) ?_
              intro hinv
              apply hne
              simp only [invariantsHold, Bool.and_eq_true, decide_eq_true_eq,
                List.all_eq_true] at hinv
              intro x hx
              exact (hinv.2.2 x hx)
            | none =>
              have hall := (entriesValidate_eq_none list).mp hev
              refine iff_of_true (by simp [TorrentFile.validate_torrent, h1, h2, h3, hev]) ?_
              simp only [invariantsHold, Bool.and_eq_true, decide_eq_true_eq,
                List.all_eq_true]
              exact ⟨⟨h1, h2⟩, h3, fun x hx => ⟨(hall x hx).1, (hall x hx).2⟩⟩
  · intro u hu
    cases fl with
    | Single len =>
      by_cases h1 : ps.length = 0
      · simp [TorrentFile.validate_torrent, h1] at hu
      · by_cases h2 : pl = 0
        · simp [TorrentFile.validate_torrent, h1, h2] at hu
        · by_cases h3 : len = 0
          · simp [TorrentFile.validate_torrent, h1, h2, h3] at hu
          · simp [TorrentFile.validate_torrent, h1, h2, h3] at hu
            exact hu.symm
    | Multiple list =>
      by_cases h1 : ps.length = 0
      · simp [TorrentFile.validate_torrent, h1] at hu
      · by_cases h2 : pl = 0
        · simp [TorrentFile.validate_torrent, h1, h2] at hu
        · by_cases h3 : list.length = 0
          · simp [TorrentFile.validate_torrent, h1, h2, h3] at hu
          · cases hev : entriesValidate list with
            | some e => simp [TorrentFile.validate_torrent, h1, h2, h3, hev] at hu
            | none =>
              simp [TorrentFile.validate_torrent, h1, h2, h3, hev] at hu
              exact hu.symm

/-- C4 witness: a concrete valid torrent passes validation unchanged. -/
theorem validator_correct_witness :
    TorrentFile.validate_torrent ⟨keyAnnounce, ⟨keyName, 16384, [List.replicate 20 0], .Single 5⟩⟩ =
      .ok ⟨keyAnnounce, ⟨keyName, 16384, [List.replicate 20 0], .Single 5⟩⟩ :=
  (validator_correct ⟨keyAnnounce, ⟨keyName, 16384, [List.replicate 20 0], .Single 5⟩⟩).2.1.mpr
    (by decide)

/-- C6: the "pieces" byte string is split into consecutive 20-byte
chunks in order (their count is the length divided by 20 and their
concatenation restores the original bytes) when the length is a multiple
of 20, and mapping fails with the length error before any chunking
otherwise — never truncating. -/
theorem pieces_chunking (s : List Nat) :
    (s.length % 20 = 0 →
      ∃ l, piecesOf s = .ok l ∧ l.length = s.length / 20 ∧ l.flatten = s ∧
        ∀ c ∈ l, c.length = 20) ∧
    (s.length % 20 ≠ 0 → piecesOf s = .err (.msg "Invalid \"pieces\" data length")) := by
  constructor
  · intro h
    unfold piecesOf
    rw [if_neg (by simp [h])]
    exact piecesLoop_spec (s.length / 20) s (by omega)
  · intro h
    unfold piecesOf
    rw [if_pos h]

/-- C6 witness: a 21-byte "pieces" string fails with the length error. -/
theorem pieces_chunking_witness :
    piecesOf (List.replicate 21 0) = .err (.msg "Invalid \"pieces\" data length") :=
  (pieces_chunking (List.replicate 21 0)).2 (by decide)

/-- C10: `u64::from_bencode` (modelled by `toU64`) rejects every integer
value that is negative or does not fit in 64 unsigned bits, and when it
accepts, it returns exactly the mathematical value (never wrapped or
truncated); the three mapper call sites for "piece_length" and "length"
propagate that rejection as a returned error. -/
theorem u64_range_enforced :
    (∀ v : Int, v < 0 ∨ (2 : Int) ^ 64 ≤ v → toU64 v = .error .badNum) ∧
    (∀ (v : Int) (n : Nat), toU64 v = .ok n → (n : Int) = v ∧ n < 2 ^ 64) ∧
    (∀ (st : InfoAcc) (v : Int), st.piece_length = none → v < 0 ∨ (2 : Int) ^ 64 ≤ v →
      infoStep st (keyPieceLength, .int v) = .err (.bendy .badNum)) ∧
    (∀ (st : InfoAcc) (v : Int), st.file_list = none → v < 0 ∨ (2 : Int) ^ 64 ≤ v →
      infoStep st (keyLength, .int v) = .err (.bendy .badNum)) ∧
    (∀ (st : FileAcc) (v : Int), st.length = none → v < 0 ∨ (2 : Int) ^ 64 ≤ v →
      fileStep st (keyLength, .int v) = .err (.bendy .badNum)) := by
  have htou : ∀ v : Int, v < 0 ∨ (2 : Int) ^ 64 ≤ v → toU64 v = .error .badNum := by
    intro v h
    unfold toU64
    rw [if_neg (by omega)]
  refine ⟨htou, ?_, ?_, ?_, ?_⟩
  · intro v n h
    unfold toU64 at h
    by_cases hr : 0 ≤ v ∧ v < (2 : Int) ^ 64
    · rw [if_pos hr] at h
      cases h
      refine ⟨Int.toNat_of_nonneg hr.1, ?_⟩
      have h2 := hr.2
      have h0 : ((2 ^ 64 : Nat) : Int) = (2 : Int) ^ 64 := by norm_num
      omega
    · rw [if_neg hr] at h
      cases h
  · intro st v hnone hout
    have hstep : infoStep st (keyPieceLength, .int v) =
        (if st.piece_length.isSome then Res.aborted "Duplicate key in dictionary"
         else
           match toU64 v with
           | .ok n => .ok { st with piece_length := some n }
           | .error e => .err (.bendy e)) := rfl
    rw [hstep, hnone]
    simp [htou v hout]
  · intro st v hnone hout
    have hstep : infoStep st (keyLength, .int v) =
        (if st.file_list.isSome then Res.aborted "Duplicate key in dictionary"
         else
           match toU64 v with
           | .ok n => .ok { st with file_list := some (.Single n) }
           | .error e => .err (.bendy e)) := rfl
    rw [hstep, hnone]
    simp [htou v hout]
  · intro st v hnone hout
    have hstep : fileStep st (keyLength, .int v) =
        (if st.length.isSome then Res.aborted "Duplicate key in dictionary"
         else
           match toU64 v with
           | .ok n => .ok { st with length := some n }
           | .error e => .err (.bendy e)) := rfl
    rw [hstep, hnone]
    simp [htou v hout]

/-- C10 witness: the value -1 is rejected at the "piece_length" site. -/
theorem u64_range_enforced_witness :
    infoStep ⟨none, none, none, none⟩ (keyPieceLength, .int (-1)) = .err (.bendy .badNum) :=
  u64_range_enforced.2.2.1 ⟨none, none, none, none⟩ (-1) rfl (Or.inl (by decide))

/-- C3: the decoder does NOT impose an effective maximum nesting depth:
`parse_torrent` configures the limit to `usize::MAX`, so for every buffer
a 64-bit process can hold the `nestingTooDeep` error is unreachable, and
a 300-level-deep nested list decodes without any depth error (while a
decoder configured with a small bound, here 3, does reject it) — the
spec calls this reference behavior a defect.  This theorem evaluates the
code at the failing input. -/
theorem depth_limit_disabled :
    (∀ s : List Nat, s.length ≤ usizeMax → nextObject usizeMax s ≠ .error .nestingTooDeep) ∧
    nextObject usizeMax (List.replicate 300 108 ++ List.replicate 300 101) =
      .ok (some (nestedList 299, [])) ∧
    nextObject 3 (List.replicate 300 108 ++ List.replicate 300 101) =
      .error .nestingTooDeep := by
  refine ⟨?_, by rfl, by rfl⟩
  intro s hlen h
  unfold nextObject at h
  rcases s with _ | ⟨c, t⟩
  · cases h
  · revert h
    rcases hv : decodeVal (2 * (c :: t).length + 2) 0 usizeMax (c :: t) with e | ⟨v2, r2⟩
    · intro h
      dsimp only at h
      cases h
      exact (decode_no_deep (2 * (c :: t).length + 2)).1 0 usizeMax (c :: t) (by omega) hv
    · intro h
      dsimp only at h
      cases h

/-- C3 witness: the blanket no-depth-error statement applied to a
concrete two-byte buffer. -/
theorem depth_limit_disabled_witness :
    nextObject usizeMax [108, 101] ≠ .error .nestingTooDeep :=
  depth_limit_disabled.1 [108, 101] (by decide)

theorem nextObject_ne_ok_none (m : Nat) (s : List Nat) (hs : s ≠ []) :
    nextObject m s ≠ .ok none := by
  unfold nextObject
  rcases s with _ | ⟨c, t⟩
  · exact absurd rfl hs
  · rcases hv : decodeVal (2 * (c :: t).length + 2) 0 m (c :: t) with e | ⟨v2, r2⟩ <;>
      dsimp only <;> intro h <;> cases h

/-- C7: after the top-level dictionary, remaining bytes are never
skipped: whenever the top-level decode leaves a non-empty rest,
`TorrentFile::parse_torrent` cannot succeed, and when the dictionary
itself maps cleanly and the rest holds a further decodable value, the
result is exactly the trailing-data "Metafile is malformed" error. -/
theorem trailing_data_rejected (buf : List Nat) (pairs : List (List Nat × Bval))
    (rest : List Nat)
    (hdec : nextObject usizeMax buf = .ok (some (.dict pairs, rest)))
    (hrest : rest ≠ []) :
    (∀ t, TorrentFile.parse_torrent buf ≠ .ok t) ∧
    (∀ (st : Option (List Nat) × Option MetaFileInfo) (ov : Bval × List Nat),
      resFold topStep pairs (none, none) = .ok st →
      nextObject usizeMax rest = .ok (some ov) →
      TorrentFile.parse_torrent buf = .err (.msg "Metafile is malformed")) := by
  constructor
  · intro t h
    unfold TorrentFile.parse_torrent at h
    rw [hdec] at h
    dsimp only at h
    rcases hf : resFold topStep pairs (none, none) with st | e | m <;> rw [hf] at h <;>
      dsimp only at h
    · rcases hn : nextObject usizeMax rest with e2 | o2
      · rw [hn] at h
        dsimp only at h
        cases h
      · rcases o2 with _ | ⟨ov⟩
        · exact nextObject_ne_ok_none usizeMax rest hrest hn
        · rw [hn] at h
          dsimp only at h
          cases h
    · cases h
    · cases h
  · intro st ov hf hn
    unfold TorrentFile.parse_torrent
    rw [hdec]
    dsimp only
    rw [hf]
    dsimp only
    rw [hn]

/-- C7 witness: a two-byte empty dictionary followed by the trailing
bytes of an integer fails with the malformed-metafile error. -/
theorem trailing_data_rejected_witness :
    TorrentFile.parse_torrent [100, 101, 105, 49, 101] = .err (.msg "Metafile is malformed") :=
  (trailing_data_rejected [100, 101, 105, 49, 101] [] [105, 49, 101] rfl
    (by decide)).2 (none, none) (.int 1, []) rfl rfl

theorem resFold_skip {σ π : Type} (step : σ → π → Res σ) (x : π)
    (hx : ∀ st, step st x = .ok st) :
    ∀ (l1 l2 : List π) (st : σ),
      resFold step (l1 ++ x :: l2) st = resFold step (l1 ++ l2) st := by
  intro l1
  induction l1 with
  | nil =>
    intro l2 st
    simp only [List.nil_append, resFold, hx]
  | cons y l1 ih =>
    intro l2 st
    simp only [List.cons_append, resFold]
    rcases hy : step st y with st2 | e | m <;> dsimp only
    exact ih l2 st2

theorem topStep_unrecognized (k : List Nat) (v : Bval) (hk : utf8Valid k = true)
    (h1 : k ≠ keyAnnounce) (h2 : k ≠ keyInfo) :
    ∀ st, topStep st (k, v) = .ok st := by
  intro st
  unfold topStep
  rw [if_neg (by simp [hk]), if_neg h1, if_neg h2]

theorem infoStep_unrecognized (k : List Nat) (v : Bval) (hk : utf8Valid k = true)
    (h1 : k ≠ keyName) (h2 : k ≠ keyPieceLength) (h3 : k ≠ keyPieces)
    (h4 : k ≠ keyLength) (h5 : k ≠ keyFiles) :
    ∀ st, infoStep st (k, v) = .ok st := by
  intro st
  unfold infoStep
  rw [if_neg (by simp [hk]), if_neg h1, if_neg h2, if_neg h3, if_neg h4, if_neg h5]

theorem fileStep_unrecognized (k : List Nat) (v : Bval) (hk : utf8Valid k = true)
    (h1 : k ≠ keyLength) (h2 : k ≠ keyPath) :
    ∀ st, fileStep st (k, v) = .ok st := by
  intro st
  unfold fileStep
  rw [if_neg (by simp [hk]), if_neg h1, if_neg h2]

/-- C8: an unrecognized key (with a valid-UTF-8 name) is silently
discarded at every dictionary level: mapping with the extra pair present
anywhere gives exactly the same result as mapping without it, for the
top-level dictionary, the `info` dictionary, and a `files` entry. -/
theorem unrecognized_key_ignored :
    (∀ (k : List Nat) (v : Bval) (l1 l2 : List (List Nat × Bval)),
      utf8Valid k = true → k ≠ keyAnnounce → k ≠ keyInfo →
      mapTorrent (l1 ++ (k, v) :: l2) = mapTorrent (l1 ++ l2)) ∧
    (∀ (k : List Nat) (v : Bval) (l1 l2 : List (List Nat × Bval)),
      utf8Valid k = true → k ≠ keyName → k ≠ keyPieceLength → k ≠ keyPieces →
      k ≠ keyLength → k ≠ keyFiles →
      MetaFileInfo.parse_torrent (l1 ++ (k, v) :: l2) = MetaFileInfo.parse_torrent (l1 ++ l2)) ∧
    (∀ (k : List Nat) (v : Bval) (l1 l2 : List (List Nat × Bval)),
      utf8Valid k = true → k ≠ keyLength → k ≠ keyPath →
      FileListItem.parse_torrent (l1 ++ (k, v) :: l2) = FileListItem.parse_torrent (l1 ++ l2)) := by
  refine ⟨?_, ?_, ?_⟩
  · intro k v l1 l2 hk h1 h2
    unfold mapTorrent
    rw [resFold_skip topStep (k, v) (topStep_unrecognized k v hk h1 h2) l1 l2]
  · intro k v l1 l2 hk h1 h2 h3 h4 h5
    unfold MetaFileInfo.parse_torrent
    rw [resFold_skip infoStep (k, v) (infoStep_unrecognized k v hk h1 h2 h3 h4 h5) l1 l2]
  · intro k v l1 l2 hk h1 h2
    unfold FileListItem.parse_torrent
    rw [resFold_skip fileStep (k, v) (fileStep_unrecognized k v hk h1 h2) l1 l2]

/-- C8 witness: a "comment" key inside the `info` dictionary is
discarded, decoding to the same result as without it. -/
theorem unrecognized_key_ignored_witness :
    MetaFileInfo.parse_torrent
        [(keyComment, .bytes [104, 105]), (keyName, .bytes [112, 107, 103]),
         (keyPieceLength, .int 16384), (keyPieces, .bytes (List.replicate 20 0)),
         (keyLength, .int 9)] =
      MetaFileInfo.parse_torrent
        [(keyName, .bytes [112, 107, 103]), (keyPieceLength, .int 16384),
         (keyPieces, .bytes (List.replicate 20 0)), (keyLength, .int 9)] :=
  unrecognized_key_ignored.2.1 keyComment (.bytes [104, 105]) []
    [(keyName, .bytes [112, 107, 103]), (keyPieceLength, .int 16384),
     (keyPieces, .bytes (List.replicate 20 0)), (keyLength, .int 9)]
    (by decide) (by decide) (by decide) (by decide) (by decide) (by decide)

/-- Invariant: every path segment stored in the accumulator is valid
UTF-8. -/
def fileAccValid (st : FileAcc) : Prop :=
  ∀ p, st.path = some p → ∀ s ∈ p, utf8Valid s = true

/-- Invariant: the name and every stored path segment are valid UTF-8. -/
def infoAccValid (st : InfoAcc) : Prop :=
  (∀ nm, st.name = some nm → utf8Valid nm = true) ∧
  (∀ fl, st.file_list = some (.Multiple fl) → ∀ fi ∈ fl, ∀ s ∈ fi.path, utf8Valid s = true)

/-- Invariant: the announce text and the info text fields are valid
UTF-8. -/
def topAccValid (st : Option (List Nat) × Option MetaFileInfo) : Prop :=
  (∀ an, st.1 = some an → utf8Valid an = true) ∧
  (∀ mi, st.2 = some mi → utf8Valid mi.name = true ∧
    ∀ fl, mi.file_list = .Multiple fl → ∀ fi ∈ fl, ∀ s ∈ fi.path, utf8Valid s = true)

theorem resFold_inv {σ π : Type} (step : σ → π → Res σ) (P : σ → Prop)
    (hstep : ∀ st x st2, P st → step st x = .ok st2 → P st2) :
    ∀ (l : List π) (st st2 : σ), P st → resFold step l st = .ok st2 → P st2 := by
  intro l
  induction l with
  | nil =>
    intro st st2 hP h
    simp only [resFold] at h
    cases h
    exact hP
  | cons x l ih =>
    intro st st2 hP h
    simp only [resFold] at h
    rcases hx : step st x with st3 | e | m <;> rw [hx] at h <;> dsimp only at h
    · exact ih st3 st2 (hstep st x st3 hP hx) h
    · cases h
    · cases h

theorem pathOf_valid : ∀ (l : List Bval) (p : List (List Nat)),
    pathOf l = .ok p → ∀ s ∈ p, utf8Valid s = true := by
  intro l
  induction l with
  | nil =>
    intro p h s hs
    simp only [pathOf] at h
    cases h
    simp at hs
  | cons hd tl ih =>
    intro p h s hs
    rcases hd with s2 | v2 | l2 | d2 <;> simp only [pathOf] at h
    · by_cases hu : utf8Valid s2 = true
      · rw [if_pos hu] at h
        rcases hp : pathOf tl with p2 | e | m <;> rw [hp] at h <;> dsimp only at h
        · cases h
          rcases List.mem_cons.mp hs with h1 | h1
          · subst h1
            exact hu
          · exact ih p2 hp s h1
        · cases h
        · cases h
      · rw [if_neg hu] at h
        cases h
    · cases h
    · cases h
    · cases h

theorem fileStep_preserves : ∀ (st : FileAcc) (kv : List Nat × Bval) (st2 : FileAcc),
    fileAccValid st → fileStep st kv = .ok st2 → fileAccValid st2 := by
  intro st kv st2 hP h
  obtain ⟨k, v⟩ := kv
  simp only [fileStep] at h
  by_cases hu : utf8Valid k = false
  · rw [if_pos hu] at h
    cases h
  · rw [if_neg hu] at h
    by_cases hk1 : k = keyLength
    · rw [if_pos hk1] at h
      by_cases hs1 : st.length.isSome
      · rw [if_pos hs1] at h
        cases h
      · rw [if_neg hs1] at h
        rcases v with s2 | v2 | l2 | d2 <;> dsimp only at h
        · cases h
        · rcases ht : toU64 v2 with e | n <;> rw [ht] at h <;> dsimp only at h
          · cases h
          · cases h
            intro p hp s hs
            exact hP p hp s hs
        · cases h
        · cases h
    · rw [if_neg hk1] at h
      by_cases hk2 : k = keyPath
      · rw [if_pos hk2] at h
        by_cases hs2 : st.path.isSome
        · rw [if_pos hs2] at h
          cases h
        · rw [if_neg hs2] at h
          rcases v with s2 | v2 | l2 | d2 <;> dsimp only at h
          · cases h
          · cases h
          · rcases hpo : pathOf l2 with p2 | e | m <;> rw [hpo] at h <;> dsimp only at h
            · cases h
              intro p hp s hs
              cases hp
              exact pathOf_valid l2 _ hpo s hs
            · cases h
            · cases h
          · cases h
      · rw [if_neg hk2] at h
        cases h
        exact hP

theorem fileItem_valid (pairs : List (List Nat × Bval)) (fi : FileListItem)
    (h : FileListItem.parse_torrent pairs = .ok fi) :
    ∀ s ∈ fi.path, utf8Valid s = true := by
  unfold FileListItem.parse_torrent at h
  rcases hf : resFold fileStep pairs ⟨none, none⟩ with st | e | m <;> rw [hf] at h <;>
    dsimp only at h
  · have hP : fileAccValid st :=
      resFold_inv fileStep fileAccValid fileStep_preserves pairs ⟨none, none⟩ st
        (by intro p hp; cases hp) hf
    rcases hl : st.length with _ | len <;> rw [hl] at h <;> dsimp only at h
    · cases h
    · rcases hp : st.path with _ | p <;> rw [hp] at h <;> dsimp only at h
      · cases h
      · cases h
        exact hP p hp
  · cases h
  · cases h

theorem filesOf_valid : ∀ (l : List Bval) (fl : List FileListItem),
    filesOf l = .ok fl → ∀ fi ∈ fl, ∀ s ∈ fi.path, utf8Valid s = true := by
  intro l
  induction l with
  | nil =>
    intro fl h fi hfi
    simp only [filesOf] at h
    cases h
    simp at hfi
  | cons hd tl ih =>
    intro fl h fi hfi
    rcases hd with s2 | v2 | l2 | d2 <;> simp only [filesOf] at h
    · cases h
    · cases h
    · cases h
    · rcases hfi2 : FileListItem.parse_torrent d2 with fi2 | e | m <;> rw [hfi2] at h <;>
        dsimp only at h
      · rcases hrest : filesOf tl with fl2 | e | m <;> rw [hrest] at h <;> dsimp only at h
        · cases h
          rcases List.mem_cons.mp hfi with h1 | h1
          · subst h1
            exact fileItem_valid d2 fi hfi2
          · exact ih fl2 hrest fi h1
        · cases h
        · cases h
      · cases h
      · cases h

theorem infoStep_preserves : ∀ (st : InfoAcc) (kv : List Nat × Bval) (st2 : InfoAcc),
    infoAccValid st → infoStep st kv = .ok st2 → infoAccValid st2 := by
  intro st kv st2 hP h
  obtain ⟨k, v⟩ := kv
  simp only [infoStep] at h
  by_cases hu : utf8Valid k = false
  · rw [if_pos hu] at h
    cases h
  · rw [if_neg hu] at h
    by_cases hk1 : k = keyName
    · rw [if_pos hk1] at h
      by_cases hs1 : st.name.isSome
      · rw [if_pos hs1] at h
        cases h
      · rw [if_neg hs1] at h
        rcases v with s2 | v2 | l2 | d2 <;> dsimp only at h
        · by_cases hu2 : utf8Valid s2 = true
          · rw [if_pos hu2] at h
            cases h
            refine ⟨?_, hP.2⟩
            intro nm hnm
            cases hnm
            exact hu2
          · rw [if_neg hu2] at h
            cases h
        · cases h
        · cases h
        · cases h
    · rw [if_neg hk1] at h
      by_cases hk2 : k = keyPieceLength
      · rw [if_pos hk2] at h
        by_cases hs2 : st.piece_length.isSome
        · rw [if_pos hs2] at h
          cases h
        · rw [if_neg hs2] at h
          rcases v with s2 | v2 | l2 | d2 <;> dsimp only at h
          · cases h
          · rcases ht : toU64 v2 with e | n <;> rw [ht] at h <;> dsimp only at h
            · cases h
            · cases h
              exact ⟨hP.1, hP.2⟩
          · cases h
          · cases h
      · rw [if_neg hk2] at h
        by_cases hk3 : k = keyPieces
        · rw [if_pos hk3] at h
          by_cases hs3 : st.pieces.isSome
          · rw [if_pos hs3] at h
            cases h
          · rw [if_neg hs3] at h
            rcases v with s2 | v2 | l2 | d2 <;> dsimp only at h
            · rcases hpc : piecesOf s2 with pc | e | m <;> rw [hpc] at h <;> dsimp only at h
              · cases h
                exact ⟨hP.1, hP.2⟩
              · cases h
              · cases h
            · cases h
            · cases h
            · cases h
        · rw [if_neg hk3] at h
          by_cases hk4 : k = keyLength
          · rw [if_pos hk4] at h
            by_cases hs4 : st.file_list.isSome
            · rw [if_pos hs4] at h
              cases h
            · rw [if_neg hs4] at h
              rcases v with s2 | v2 | l2 | d2 <;> dsimp only at h
              · cases h
              · rcases ht : toU64 v2 with e | n <;> rw [ht] at h <;> dsimp only at h
                · cases h
                · cases h
                  refine ⟨hP.1, ?_⟩
                  intro fl hfl
                  simp at hfl
              · cases h
              · cases h
          · rw [if_neg hk4] at h
            by_cases hk5 : k = keyFiles
            · rw [if_pos hk5] at h
              by_cases hs5 : st.file_list.isSome
              · rw [if_pos hs5] at h
                cases h
              · rw [if_neg hs5] at h
                rcases v with s2 | v2 | l2 | d2 <;> dsimp only at h
                · cases h
                · cases h
                · rcases hfo : filesOf l2 with fl2 | e | m <;> rw [hfo] at h <;> dsimp only at h
                  · cases h
                    refine ⟨hP.1, ?_⟩
                    intro fl hfl
                    cases hfl
                    exact filesOf_valid l2 _ hfo
                  · cases h
                  · cases h
                · cases h
            · rw [if_neg hk5] at h
              cases h
              exact hP

theorem metaInfo_valid (pairs : List (List Nat × Bval)) (mi : MetaFileInfo)
    (h : MetaFileInfo.parse_torrent pairs = .ok mi) :
    utf8Valid mi.name = true ∧
    ∀ fl, mi.file_list = .Multiple fl → ∀ fi ∈ fl, ∀ s ∈ fi.path, utf8Valid s = true := by
  unfold MetaFileInfo.parse_torrent at h
  rcases hf : resFold infoStep pairs ⟨none, none, none, none⟩ with st | e | m <;> rw [hf] at h <;>
    dsimp only at h
  · have hP : infoAccValid st :=
      resFold_inv infoStep infoAccValid infoStep_preserves pairs ⟨none, none, none, none⟩ st
        ⟨(fun nm hnm => nomatch hnm), (fun fl hfl => nomatch hfl)⟩ hf
    rcases hn : st.name with _ | nm <;> rw [hn] at h <;> dsimp only at h
    · cases h
    · rcases hpl : st.piece_length with _ | pl <;> rw [hpl] at h <;> dsimp only at h
      · cases h
      · rcases hps : st.pieces with _ | ps <;> rw [hps] at h <;> dsimp only at h
        · cases h
        · rcases hfl : st.file_list with _ | fl <;> rw [hfl] at h <;> dsimp only at h
          · cases h
          · cases h
            refine ⟨hP.1 nm hn, ?_⟩
            intro fl2 hfl2
            apply hP.2 fl2
            rw [hfl]
            rw [show (⟨nm, pl, ps, fl⟩ : MetaFileInfo).file_list = fl from rfl] at hfl2
            rw [hfl2]
  · cases h
  · cases h

theorem topStep_preserves :
    ∀ (st : Option (List Nat) × Option MetaFileInfo) (kv : List Nat × Bval)
      (st2 : Option (List Nat) × Option MetaFileInfo),
    topAccValid st → topStep st kv = .ok st2 → topAccValid st2 := by
  intro st kv st2 hP h
  obtain ⟨k, v⟩ := kv
  simp only [topStep] at h
  by_cases hu : utf8Valid k = false
  · rw [if_pos hu] at h
    cases h
  · rw [if_neg hu] at h
    by_cases hk1 : k = keyAnnounce
    · rw [if_pos hk1] at h
      by_cases hs1 : st.1.isSome
      · rw [if_pos hs1] at h
        cases h
      · rw [if_neg hs1] at h
        rcases v with s2 | v2 | l2 | d2 <;> dsimp only at h
        · by_cases hu2 : utf8Valid s2 = true
          · rw [if_pos hu2] at h
            cases h
            refine ⟨?_, hP.2⟩
            intro an han
            cases han
            exact hu2
          · rw [if_neg hu2] at h
            cases h
        · cases h
        · cases h
        · cases h
    · rw [if_neg hk1] at h
      by_cases hk2 : k = keyInfo
      · rw [if_pos hk2] at h
        by_cases hs2 : st.2.isSome
        · rw [if_pos hs2] at h
          cases h
        · rw [if_neg hs2] at h
          rcases v with s2 | v2 | l2 | d2 <;> dsimp only at h
          · cases h
          · cases h
          · cases h
          · rcases hmi : MetaFileInfo.parse_torrent d2 with mi2 | e | m <;> rw [hmi] at h <;>
              dsimp only at h
            · cases h
              refine ⟨hP.1, ?_⟩
              intro mi hmi2
              cases hmi2
              exact metaInfo_valid d2 _ hmi
            · cases h
            · cases h
      · rw [if_neg hk2] at h
        cases h
        exact hP

theorem mapTorrent_valid (pairs : List (List Nat × Bval)) (t : TorrentFile)
    (h : mapTorrent pairs = .ok t) :
    utf8Valid t.announce = true ∧ utf8Valid t.info.name = true ∧
    ∀ fl, t.info.file_list = .Multiple fl → ∀ fi ∈ fl, ∀ s ∈ fi.path, utf8Valid s = true := by
  unfold mapTorrent at h
  rcases hf : resFold topStep pairs (none, none) with st | e | m <;> rw [hf] at h <;>
    dsimp only at h
  · have hP : topAccValid st :=
      resFold_inv topStep topAccValid topStep_preserves pairs (none, none) st
        ⟨(fun an han => nomatch han), (fun mi hmi => nomatch hmi)⟩ hf
    rcases ha : st.1 with _ | an <;> rw [ha] at h <;> dsimp only at h
    · cases h
    · rcases hi : st.2 with _ | mi <;> rw [hi] at h <;> dsimp only at h
      · cases h
      · cases h
        have h2 := hP.2 mi hi
        exact ⟨hP.1 an ha, h2.1, h2.2⟩
  · cases h
  · cases h

theorem resFold_poison {σ π : Type} (step : σ → π → Res σ) (x : π)
    (hx : ∀ st u, step st x ≠ .ok u) :
    ∀ (l1 l2 : List π) (st r : σ), resFold step (l1 ++ x :: l2) st ≠ .ok r := by
  intro l1
  induction l1 with
  | nil =>
    intro l2 st r h
    simp only [List.nil_append, resFold] at h
    rcases hs : step st x with u | e | m <;> rw [hs] at h <;> dsimp only at h
    · exact hx st u hs
    · cases h
    · cases h
  | cons y l1 ih =>
    intro l2 st r h
    simp only [List.cons_append, resFold] at h
    rcases hy : step st y with st2 | e | m <;> rw [hy] at h <;> dsimp only at h
    · exact ih l2 st2 r h
    · cases h
    · cases h

theorem topStep_bad_key (k : List Nat) (v : Bval) (hk : utf8Valid k = false) :
    ∀ st u, topStep st (k, v) ≠ .ok u := by
  intro st u h
  simp only [topStep] at h
  rw [if_pos hk] at h
  cases h

/-- C9: decoded text is really text — a successfully mapped model only
carries valid UTF-8 in `announce`, `name` and every `path` segment; a
dictionary key that is not valid UTF-8 makes the whole mapping fail, as
does a non-UTF-8 `path` element or `announce` value. -/
theorem text_fields_utf8 :
    (∀ (pairs : List (List Nat × Bval)) (t : TorrentFile), mapTorrent pairs = .ok t →
      utf8Valid t.announce = true ∧ utf8Valid t.info.name = true ∧
      ∀ fl, t.info.file_list = .Multiple fl → ∀ fi ∈ fl, ∀ s ∈ fi.path, utf8Valid s = true) ∧
    (∀ (k : List Nat) (v : Bval) (l1 l2 : List (List Nat × Bval)) (t : TorrentFile),
      utf8Valid k = false → mapTorrent (l1 ++ (k, v) :: l2) ≠ .ok t) ∧
    (∀ (s : List Nat) (l1 l2 : List Bval) (p : List (List Nat)),
      utf8Valid s = false → pathOf (l1 ++ .bytes s :: l2) ≠ .ok p) ∧
    (∀ (st u : Option (List Nat) × Option MetaFileInfo) (s : List Nat),
      utf8Valid s = false → topStep st (keyAnnounce, .bytes s) ≠ .ok u) := by
  refine ⟨mapTorrent_valid, ?_, ?_, ?_⟩
  · intro k v l1 l2 t hk h
    unfold mapTorrent at h
    rcases hf : resFold topStep (l1 ++ (k, v) :: l2) (none, none) with st | e | m <;>
      rw [hf] at h <;> dsimp only at h
    · exact resFold_poison topStep (k, v) (topStep_bad_key k v hk) l1 l2 (none, none) st hf
    · cases h
    · cases h
  · intro s l1 l2 p hk
    induction l1 generalizing p with
    | nil =>
      intro h
      simp only [List.nil_append, pathOf] at h
      rw [if_neg (by simp [hk])] at h
      cases h
    | cons hd tl ih =>
      intro h
      rcases hd with s2 | v2 | l3 | d2 <;>
        simp only [List.cons_append, pathOf, List.append_eq] at h
      · by_cases hu : utf8Valid s2 = true
        · rw [if_pos hu] at h
          rcases hp : pathOf (tl ++ .bytes s :: l2) with p2 | e | m <;> rw [hp] at h <;>
            dsimp only at h
          · exact ih p2 hp
          · cases h
          · cases h
        · rw [if_neg hu] at h
          cases h
      · cases h
      · cases h
      · cases h
  · intro st u s hk h
    have hstep : topStep st (keyAnnounce, .bytes s) =
        (if st.1.isSome then Res.aborted "Duplicate key in dictionary"
         else if utf8Valid s then .ok (some s, st.2) else .err (.bendy .badUtf8)) := rfl
    rw [hstep] at h
    by_cases hs1 : st.1.isSome
    · rw [if_pos hs1] at h
      cases h
    · rw [if_neg hs1] at h
      rw [if_neg (by simp [hk])] at h
      cases h

/-- C9 witness: a concrete fully valid descriptor maps successfully and
its announce and name fields are confirmed valid UTF-8 by the blanket
theorem. -/
theorem text_fields_utf8_witness :
    utf8Valid (⟨[104, 116, 116, 112], ⟨[112, 107, 103], 16384, [List.replicate 20 0],
        .Multiple [⟨5, [[97]]⟩]⟩⟩ : TorrentFile).announce = true ∧
    utf8Valid (⟨[104, 116, 116, 112], ⟨[112, 107, 103], 16384, [List.replicate 20 0],
        .Multiple [⟨5, [[97]]⟩]⟩⟩ : TorrentFile).info.name = true :=
  ⟨(text_fields_utf8.1
      [(keyAnnounce, .bytes [104, 116, 116, 112]),
       (keyInfo, .dict [(keyName, .bytes [112, 107, 103]), (keyPieceLength, .int 16384),
         (keyPieces, .bytes (List.replicate 20 0)),
         (keyFiles, .list [.dict [(keyLength, .int 5), (keyPath, .list [.bytes [97]])]])])]
      _ rfl).1,
   (text_fields_utf8.1
      [(keyAnnounce, .bytes [104, 116, 116, 112]),
       (keyInfo, .dict [(keyName, .bytes [112, 107, 103]), (keyPieceLength, .int 16384),
         (keyPieces, .bytes (List.replicate 20 0)),
         (keyFiles, .list [.dict [(keyLength, .int 5), (keyPath, .list [.bytes [97]])]])])]
      _ rfl).2.1⟩

theorem resFold_perm {σ π : Type} (step : σ → π → Res σ)
    (comm : ∀ (a b : π) (st s1 s2 : σ), step st a = .ok s1 → step s1 b = .ok s2 →
      ∃ u, step st b = .ok u ∧ step u a = .ok s2) :
    ∀ {l1 l2 : List π}, l1.Perm l2 → ∀ (st r : σ),
      resFold step l1 st = .ok r → resFold step l2 st = .ok r := by
  intro l1 l2 hperm
  induction hperm with
  | nil =>
    intro st r h
    exact h
  | cons x hp ih =>
    intro st r h
    simp only [resFold] at h ⊢
    rcases hx : step st x with st2 | e | m <;> rw [hx] at h <;> dsimp only at h ⊢
    · exact ih st2 r h
    · cases h
    · cases h
  | swap x y l =>
    intro st r h
    simp only [resFold] at h ⊢
    rcases hy : step st y with s1 | e | m <;> rw [hy] at h <;> dsimp only at h
    · rcases hx : step s1 x with s2 | e | m <;> rw [hx] at h <;> dsimp only at h
      · obtain ⟨u, hu1, hu2⟩ := comm y x st s1 s2 hy hx
        rw [hu1]
        dsimp only
        rw [hu2]
        dsimp only
        exact h
      · cases h
      · cases h
    · cases h
    · cases h
  | trans h12 h23 ih12 ih23 =>
    intro st r h
    exact ih23 st r (ih12 st r h)

theorem option_not_isSome {α : Type} {o : Option α} (h : ¬o.isSome = true) : o = none := by
  cases o with
  | none => rfl
  | some x => simp at h

theorem fileStep_ok_inv (st s2 : FileAcc) (k : List Nat) (v : Bval)
    (h : fileStep st (k, v) = .ok s2) :
    utf8Valid k = true ∧
    ((k ≠ keyLength ∧ k ≠ keyPath ∧ s2 = st) ∨
     (k = keyLength ∧ st.length = none ∧ ∃ iv n, v = .int iv ∧ toU64 iv = .ok n ∧
       s2 = { st with length := some n }) ∨
     (k = keyPath ∧ st.path = none ∧ ∃ l p, v = .list l ∧ pathOf l = .ok p ∧
       s2 = { st with path := some p })) := by
  simp only [fileStep] at h
  by_cases hu : utf8Valid k = false
  · rw [if_pos hu] at h
    cases h
  · rw [if_neg hu] at h
    have hu2 : utf8Valid k = true := by
      cases hv : utf8Valid k
      · exact absurd hv hu
      · rfl
    refine ⟨hu2, ?_⟩
    by_cases hk1 : k = keyLength
    · rw [if_pos hk1] at h
      by_cases hs1 : st.length.isSome
      · rw [if_pos hs1] at h
        cases h
      · rw [if_neg hs1] at h
        rcases v with s3 | v3 | l3 | d3 <;> dsimp only at h
        · cases h
        · rcases ht : toU64 v3 with e | n <;> rw [ht] at h <;> dsimp only at h
          · cases h
          · cases h
            exact Or.inr (Or.inl ⟨hk1, option_not_isSome hs1, v3, n, rfl, ht, rfl⟩)
        · cases h
        · cases h
    · rw [if_neg hk1] at h
      by_cases hk2 : k = keyPath
      · rw [if_pos hk2] at h
        by_cases hs2 : st.path.isSome
        · rw [if_pos hs2] at h
          cases h
        · rw [if_neg hs2] at h
          rcases v with s3 | v3 | l3 | d3 <;> dsimp only at h
          · cases h
          · cases h
          · rcases hp : pathOf l3 with p | e | m <;> rw [hp] at h <;> dsimp only at h
            · cases h
              exact Or.inr (Or.inr ⟨hk2, option_not_isSome hs2, l3, p, rfl, hp, rfl⟩)
            · cases h
            · cases h
          · cases h
      · rw [if_neg hk2] at h
        cases h
        exact Or.inl ⟨hk1, hk2, rfl⟩

theorem fileStep_length_fwd (iv : Int) (n : Nat) (ht : toU64 iv = .ok n) (st : FileAcc)
    (hn : st.length = none) :
    fileStep st (keyLength, .int iv) = .ok { st with length := some n } := by
  have hstep : fileStep st (keyLength, .int iv) =
      (if st.length.isSome then Res.aborted "Duplicate key in dictionary"
       else
         match toU64 iv with
         | .ok n => .ok { st with length := some n }
         | .error e => .err (.bendy e)) := rfl
  rw [hstep, hn, ht]
  rfl

theorem fileStep_path_fwd (l : List Bval) (p : List (List Nat)) (hp : pathOf l = .ok p)
    (st : FileAcc) (hn : st.path = none) :
    fileStep st (keyPath, .list l) = .ok { st with path := some p } := by
  have hstep : fileStep st (keyPath, .list l) =
      (if st.path.isSome then Res.aborted "Duplicate key in dictionary"
       else
         match pathOf l with
         | .ok p => .ok { st with path := some p }
         | .err e => .err e
         | .aborted m => .aborted m) := rfl
  rw [hstep, hn, hp]
  rfl

theorem fileStep_comm (a b : List Nat × Bval) (st s1 s2 : FileAcc)
    (h1 : fileStep st a = .ok s1) (h2 : fileStep s1 b = .ok s2) :
    ∃ u, fileStep st b = .ok u ∧ fileStep u a = .ok s2 := by
  obtain ⟨ka, va⟩ := a
  obtain ⟨kb, vb⟩ := b
  obtain ⟨hua, hA⟩ := fileStep_ok_inv st s1 ka va h1
  obtain ⟨hub, hB⟩ := fileStep_ok_inv s1 s2 kb vb h2
  rcases hA with ⟨ha1, ha2, hs1⟩ | ⟨hka, hna, iva, na, hva, hta, hs1⟩ |
    ⟨hka, hna, la, pa, hva, hpa, hs1⟩
  · subst hs1
    exact ⟨s2, h2, fileStep_unrecognized ka va hua ha1 ha2 s2⟩
  · subst hs1 hva hka
    rcases hB with ⟨hb1, hb2, hs2⟩ | ⟨hkb, hnb, ivb, nb, hvb, htb, hs2⟩ |
      ⟨hkb, hnb, lb, pb, hvb, hpb, hs2⟩
    · subst hs2
      exact ⟨st, fileStep_unrecognized kb vb hub hb1 hb2 st,
        fileStep_length_fwd iva na hta st hna⟩
    · subst hkb
      simp at hnb
    · subst hs2 hvb hkb
      refine ⟨{ st with path := some pb }, fileStep_path_fwd lb pb hpb st ?_, ?_⟩
      · exact hnb
      · exact fileStep_length_fwd iva na hta { st with path := some pb } hna
  · subst hs1 hva hka
    rcases hB with ⟨hb1, hb2, hs2⟩ | ⟨hkb, hnb, ivb, nb, hvb, htb, hs2⟩ |
      ⟨hkb, hnb, lb, pb, hvb, hpb, hs2⟩
    · subst hs2
      exact ⟨st, fileStep_unrecognized kb vb hub hb1 hb2 st,
        fileStep_path_fwd la pa hpa st hna⟩
    · subst hs2 hvb hkb
      refine ⟨{ st with length := some nb }, fileStep_length_fwd ivb nb htb st ?_, ?_⟩
      · exact hnb
      · exact fileStep_path_fwd la pa hpa { st with length := some nb } hna
    · subst hkb
      simp at hnb

theorem topStep_ok_inv (st s2 : Option (List Nat) × Option MetaFileInfo) (k : List Nat)
    (v : Bval) (h : topStep st (k, v) = .ok s2) :
    utf8Valid k = true ∧
    ((k ≠ keyAnnounce ∧ k ≠ keyInfo ∧ s2 = st) ∨
     (k = keyAnnounce ∧ st.1 = none ∧ ∃ sa, v = .bytes sa ∧ utf8Valid sa = true ∧
       s2 = (some sa, st.2)) ∨
     (k = keyInfo ∧ st.2 = none ∧ ∃ d mi, v = .dict d ∧ MetaFileInfo.parse_torrent d = .ok mi ∧
       s2 = (st.1, some mi))) := by
  simp only [topStep] at h
  by_cases hu : utf8Valid k = false
  · rw [if_pos hu] at h
    cases h
  · rw [if_neg hu] at h
    have hu2 : utf8Valid k = true := by
      cases hv : utf8Valid k
      · exact absurd hv hu
      · rfl
    refine ⟨hu2, ?_⟩
    by_cases hk1 : k = keyAnnounce
    · rw [if_pos hk1] at h
      by_cases hs1 : st.1.isSome
      · rw [if_pos hs1] at h
        cases h
      · rw [if_neg hs1] at h
        rcases v with s3 | v3 | l3 | d3 <;> dsimp only at h
        · by_cases hu3 : utf8Valid s3 = true
          · rw [if_pos hu3] at h
            cases h
            exact Or.inr (Or.inl ⟨hk1, option_not_isSome hs1, s3, rfl, hu3, rfl⟩)
          · rw [if_neg hu3] at h
            cases h
        · cases h
        · cases h
        · cases h
    · rw [if_neg hk1] at h
      by_cases hk2 : k = keyInfo
      · rw [if_pos hk2] at h
        by_cases hs2 : st.2.isSome
        · rw [if_pos hs2] at h
          cases h
        · rw [if_neg hs2] at h
          rcases v with s3 | v3 | l3 | d3 <;> dsimp only at h
          · cases h
          · cases h
          · cases h
          · rcases hmi : MetaFileInfo.parse_torrent d3 with mi | e | m <;> rw [hmi] at h <;>
              dsimp only at h
            · cases h
              exact Or.inr (Or.inr ⟨hk2, option_not_isSome hs2, d3, mi, rfl, hmi, rfl⟩)
            · cases h
            · cases h
      · rw [if_neg hk2] at h
        cases h
        exact Or.inl ⟨hk1, hk2, rfl⟩

theorem topStep_announce_fwd (sa : List Nat) (hu : utf8Valid sa = true)
    (st : Option (List Nat) × Option MetaFileInfo) (hn : st.1 = none) :
    topStep st (keyAnnounce, .bytes sa) = .ok (some sa, st.2) := by
  have hstep : topStep st (keyAnnounce, .bytes sa) =
      (if st.1.isSome then Res.aborted "Duplicate key in dictionary"
       else if utf8Valid sa then .ok (some sa, st.2) else .err (.bendy .badUtf8)) := rfl
  rw [hstep, hn, hu]
  rfl

theorem topStep_info_fwd (d : List (List Nat × Bval)) (mi : MetaFileInfo)
    (hmi : MetaFileInfo.parse_torrent d = .ok mi)
    (st : Option (List Nat) × Option MetaFileInfo) (hn : st.2 = none) :
    topStep st (keyInfo, .dict d) = .ok (st.1, some mi) := by
  have hstep : topStep st (keyInfo, .dict d) =
      (if st.2.isSome then Res.aborted "Duplicate key in dictionary"
       else
         match MetaFileInfo.parse_torrent d with
         | .ok mi => .ok (st.1, some mi)
         | .err e => .err e
         | .aborted m => .aborted m) := rfl
  rw [hstep, hn, hmi]
  rfl

theorem topStep_comm (a b : List Nat × Bval) (st s1 s2 : Option (List Nat) × Option MetaFileInfo)
    (h1 : topStep st a = .ok s1) (h2 : topStep s1 b = .ok s2) :
    ∃ u, topStep st b = .ok u ∧ topStep u a = .ok s2 := by
  obtain ⟨ka, va⟩ := a
  obtain ⟨kb, vb⟩ := b
  obtain ⟨hua, hA⟩ := topStep_ok_inv st s1 ka va h1
  obtain ⟨hub, hB⟩ := topStep_ok_inv s1 s2 kb vb h2
  rcases hA with ⟨ha1, ha2, hs1⟩ | ⟨hka, hna, sa, hva, husa, hs1⟩ |
    ⟨hka, hna, da, mia, hva, hmia, hs1⟩
  · subst hs1
    exact ⟨s2, h2, topStep_unrecognized ka va hua ha1 ha2 s2⟩
  · subst hs1 hva hka
    rcases hB with ⟨hb1, hb2, hs2⟩ | ⟨hkb, hnb, sb, hvb, husb, hs2⟩ |
      ⟨hkb, hnb, db, mib, hvb, hmib, hs2⟩
    · subst hs2
      exact ⟨st, topStep_unrecognized kb vb hub hb1 hb2 st,
        topStep_announce_fwd sa husa st hna⟩
    · subst hkb
      simp at hnb
    · subst hs2 hvb hkb
      exact ⟨(st.1, some mib), topStep_info_fwd db mib hmib st hnb,
        topStep_announce_fwd sa husa (st.1, some mib) hna⟩
  · subst hs1 hva hka
    rcases hB with ⟨hb1, hb2, hs2⟩ | ⟨hkb, hnb, sb, hvb, husb, hs2⟩ |
      ⟨hkb, hnb, db, mib, hvb, hmib, hs2⟩
    · subst hs2
      exact ⟨st, topStep_unrecognized kb vb hub hb1 hb2 st,
        topStep_info_fwd da mia hmia st hna⟩
    · subst hs2 hvb hkb
      exact ⟨(some sb, st.2), topStep_announce_fwd sb husb st hnb,
        topStep_info_fwd da mia hmia (some sb, st.2) hna⟩
    · subst hkb
      simp at hnb

theorem infoStep_ok_inv (st s2 : InfoAcc) (k : List Nat) (v : Bval)
    (h : infoStep st (k, v) = .ok s2) :
    utf8Valid k = true ∧
    ((k ≠ keyName ∧ k ≠ keyPieceLength ∧ k ≠ keyPieces ∧ k ≠ keyLength ∧ k ≠ keyFiles ∧
       s2 = st) ∨
     (k = keyName ∧ st.name = none ∧ ∃ sa, v = .bytes sa ∧ utf8Valid sa = true ∧
       s2 = { st with name := some sa }) ∨
     (k = keyPieceLength ∧ st.piece_length = none ∧ ∃ iv n, v = .int iv ∧ toU64 iv = .ok n ∧
       s2 = { st with piece_length := some n }) ∨
     (k = keyPieces ∧ st.pieces = none ∧ ∃ sa pc, v = .bytes sa ∧ piecesOf sa = .ok pc ∧
       s2 = { st with pieces := some pc }) ∨
     (k = keyLength ∧ st.file_list = none ∧ ∃ iv n, v = .int iv ∧ toU64 iv = .ok n ∧
       s2 = { st with file_list := some (.Single n) }) ∨
     (k = keyFiles ∧ st.file_list = none ∧ ∃ l fl, v = .list l ∧ filesOf l = .ok fl ∧
       s2 = { st with file_list := some (.Multiple fl) })) := by
  simp only [infoStep] at h
  by_cases hu : utf8Valid k = false
  · rw [if_pos hu] at h
    cases h
  · rw [if_neg hu] at h
    have hu2 : utf8Valid k = true := by
      cases hv : utf8Valid k
      · exact absurd hv hu
      · rfl
    refine ⟨hu2, ?_⟩
    by_cases hk1 : k = keyName
    · rw [if_pos hk1] at h
      by_cases hs1 : st.name.isSome
      · rw [if_pos hs1] at h
        cases h
      · rw [if_neg hs1] at h
        rcases v with s3 | v3 | l3 | d3 <;> dsimp only at h
        · by_cases hu3 : utf8Valid s3 = true
          · rw [if_pos hu3] at h
            cases h
            exact Or.inr (Or.inl ⟨hk1, option_not_isSome hs1, s3, rfl, hu3, rfl⟩)
          · rw [if_neg hu3] at h
            cases h
        · cases h
        · cases h
        · cases h
    · rw [if_neg hk1] at h
      by_cases hk2 : k = keyPieceLength
      · rw [if_pos hk2] at h
        by_cases hs2 : st.piece_length.isSome
        · rw [if_pos hs2] at h
          cases h
        · rw [if_neg hs2] at h
          rcases v with s3 | v3 | l3 | d3 <;> dsimp only at h
          · cases h
          · rcases ht : toU64 v3 with e | n <;> rw [ht] at h <;> dsimp only at h
            · cases h
            · cases h
              exact Or.inr (Or.inr (Or.inl ⟨hk2, option_not_isSome hs2, v3, n, rfl, ht, rfl⟩))
          · cases h
          · cases h
      · rw [if_neg hk2] at h
        by_cases hk3 : k = keyPieces
        · rw [if_pos hk3] at h
          by_cases hs3 : st.pieces.isSome
          · rw [if_pos hs3] at h
            cases h
          · rw [if_neg hs3] at h
            rcases v with s3 | v3 | l3 | d3 <;> dsimp only at h
            · rcases hpc : piecesOf s3 with pc | e | m <;> rw [hpc] at h <;> dsimp only at h
              · cases h
                exact Or.inr (Or.inr (Or.inr (Or.inl
                  ⟨hk3, option_not_isSome hs3, s3, pc, rfl, hpc, rfl⟩)))
              · cases h
              · cases h
            · cases h
            · cases h
            · cases h
        · rw [if_neg hk3] at h
          by_cases hk4 : k = keyLength
          · rw [if_pos hk4] at h
            by_cases hs4 : st.file_list.isSome
            · rw [if_pos hs4] at h
              cases h
            · rw [if_neg hs4] at h
              rcases v with s3 | v3 | l3 | d3 <;> dsimp only at h
              · cases h
              · rcases ht : toU64 v3 with e | n <;> rw [ht] at h <;> dsimp only at h
                · cases h
                · cases h
                  exact Or.inr (Or.inr (Or.inr (Or.inr (Or.inl
                    ⟨hk4, option_not_isSome hs4, v3, n, rfl, ht, rfl⟩))))
              · cases h
              · cases h
          · rw [if_neg hk4] at h
            by_cases hk5 : k = keyFiles
            · rw [if_pos hk5] at h
              by_cases hs5 : st.file_list.isSome
              · rw [if_pos hs5] at h
                cases h
              · rw [if_neg hs5] at h
                rcases v with s3 | v3 | l3 | d3 <;> dsimp only at h
                · cases h
                · cases h
                · rcases hfo : filesOf l3 with fl | e | m <;> rw [hfo] at h <;> dsimp only at h
                  · cases h
                    exact Or.inr (Or.inr (Or.inr (Or.inr (Or.inr
                      ⟨hk5, option_not_isSome hs5, l3, fl, rfl, hfo, rfl⟩))))
                  · cases h
                  · cases h
                · cases h
            · rw [if_neg hk5] at h
              cases h
              exact Or.inl ⟨hk1, hk2, hk3, hk4, hk5, rfl⟩

theorem infoStep_name_fwd (sa : List Nat) (hu : utf8Valid sa = true) (st : InfoAcc)
    (hn : st.name = none) :
    infoStep st (keyName, .bytes sa) = .ok { st with name := some sa } := by
  have hstep : infoStep st (keyName, .bytes sa) =
      (if st.name.isSome then Res.aborted "Duplicate key in dictionary"
       else if utf8Valid sa then .ok { st with name := some sa }
       else .err (.bendy .badUtf8)) := rfl
  rw [hstep, hn, hu]
  rfl

theorem infoStep_pl_fwd (iv : Int) (n : Nat) (ht : toU64 iv = .ok n) (st : InfoAcc)
    (hn : st.piece_length = none) :
    infoStep st (keyPieceLength, .int iv) = .ok { st with piece_length := some n } := by
  have hstep : infoStep st (keyPieceLength, .int iv) =
      (if st.piece_length.isSome then Res.aborted "Duplicate key in dictionary"
       else
         match toU64 iv with
         | .ok n => .ok { st with piece_length := some n }
         | .error e => .err (.bendy e)) := rfl
  rw [hstep, hn, ht]
  rfl

theorem infoStep_pieces_fwd (sa : List Nat) (pc : List (List Nat))
    (hpc : piecesOf sa = .ok pc) (st : InfoAcc) (hn : st.pieces = none) :
    infoStep st (keyPieces, .bytes sa) = .ok { st with pieces := some pc } := by
  have hstep : infoStep st (keyPieces, .bytes sa) =
      (if st.pieces.isSome then Res.aborted "Duplicate key in dictionary"
       else
         match piecesOf sa with
         | .ok l => .ok { st with pieces := some l }
         | .err e => .err e
         | .aborted m => .aborted m) := rfl
  rw [hstep, hn, hpc]
  rfl

theorem infoStep_length_fwd (iv : Int) (n : Nat) (ht : toU64 iv = .ok n) (st : InfoAcc)
    (hn : st.file_list = none) :
    infoStep st (keyLength, .int iv) = .ok { st with file_list := some (.Single n) } := by
  have hstep : infoStep st (keyLength, .int iv) =
      (if st.file_list.isSome then Res.aborted "Duplicate key in dictionary"
       else
         match toU64 iv with
         | .ok n => .ok { st with file_list := some (.Single n) }
         | .error e => .err (.bendy e)) := rfl
  rw [hstep, hn, ht]
  rfl

theorem infoStep_files_fwd (l : List Bval) (fl : List FileListItem)
    (hfo : filesOf l = .ok fl) (st : InfoAcc) (hn : st.file_list = none) :
    infoStep st (keyFiles, .list l) = .ok { st with file_list := some (.Multiple fl) } := by
  have hstep : infoStep st (keyFiles, .list l) =
      (if st.file_list.isSome then Res.aborted "Duplicate key in dictionary"
       else
         match filesOf l with
         | .ok fl => .ok { st with file_list := some (.Multiple fl) }
         | .err e => .err e
         | .aborted m => .aborted m) := rfl
  rw [hstep, hn, hfo]
  rfl

theorem infoStep_comm (a b : List Nat × Bval) (st s1 s2 : InfoAcc)
    (h1 : infoStep st a = .ok s1) (h2 : infoStep s1 b = .ok s2) :
    ∃ u, infoStep st b = .ok u ∧ infoStep u a = .ok s2 := by
  obtain ⟨ka, va⟩ := a
  obtain ⟨kb, vb⟩ := b
  obtain ⟨hua, hA⟩ := infoStep_ok_inv st s1 ka va h1
  obtain ⟨hub, hB⟩ := infoStep_ok_inv s1 s2 kb vb h2
  rcases hA with ⟨ha1, ha2, ha3, ha4, ha5, hs1⟩ |
    ⟨hka, hna, sa, hva, husa, hs1⟩ |
    ⟨hka, hna, iva, na, hva, hta, hs1⟩ |
    ⟨hka, hna, sa, pca, hva, hpca, hs1⟩ |
    ⟨hka, hna, iva, na, hva, hta, hs1⟩ |
    ⟨hka, hna, la, fla, hva, hfla, hs1⟩
  · subst hs1
    exact ⟨s2, h2, infoStep_unrecognized ka va hua ha1 ha2 ha3 ha4 ha5 s2⟩
  · subst hs1 hva hka
    rcases hB with ⟨hb1, hb2, hb3, hb4, hb5, hs2⟩ |
      ⟨hkb, hnb, sb, hvb, husb, hs2⟩ |
      ⟨hkb, hnb, ivb, nb, hvb, htb, hs2⟩ |
      ⟨hkb, hnb, sb, pcb, hvb, hpcb, hs2⟩ |
      ⟨hkb, hnb, ivb, nb, hvb, htb, hs2⟩ |
      ⟨hkb, hnb, lb, flb, hvb, hflb, hs2⟩
    · subst hs2
      exact ⟨st, infoStep_unrecognized kb vb hub hb1 hb2 hb3 hb4 hb5 st,
        infoStep_name_fwd sa husa st hna⟩
    · subst hkb
      simp at hnb
    · subst hs2 hvb hkb
      exact ⟨{ st with piece_length := some nb }, infoStep_pl_fwd ivb nb htb st hnb,
        infoStep_name_fwd sa husa { st with piece_length := some nb } hna⟩
    · subst hs2 hvb hkb
      exact ⟨{ st with pieces := some pcb }, infoStep_pieces_fwd sb pcb hpcb st hnb,
        infoStep_name_fwd sa husa { st with pieces := some pcb } hna⟩
    · subst hs2 hvb hkb
      exact ⟨{ st with file_list := some (.Single nb) }, infoStep_length_fwd ivb nb htb st hnb,
        infoStep_name_fwd sa husa { st with file_list := some (.Single nb) } hna⟩
    · subst hs2 hvb hkb
      exact ⟨{ st with file_list := some (.Multiple flb) },
        infoStep_files_fwd lb flb hflb st hnb,
        infoStep_name_fwd sa husa { st with file_list := some (.Multiple flb) } hna⟩
  · subst hs1 hva hka
    rcases hB with ⟨hb1, hb2, hb3, hb4, hb5, hs2⟩ |
      ⟨hkb, hnb, sb, hvb, husb, hs2⟩ |
      ⟨hkb, hnb, ivb, nb, hvb, htb, hs2⟩ |
      ⟨hkb, hnb, sb, pcb, hvb, hpcb, hs2⟩ |
      ⟨hkb, hnb, ivb, nb, hvb, htb, hs2⟩ |
      ⟨hkb, hnb, lb, flb, hvb, hflb, hs2⟩
    · subst hs2
      exact ⟨st, infoStep_unrecognized kb vb hub hb1 hb2 hb3 hb4 hb5 st,
        infoStep_pl_fwd iva na hta st hna⟩
    · subst hs2 hvb hkb
      exact ⟨{ st with name := some sb }, infoStep_name_fwd sb husb st hnb,
        infoStep_pl_fwd iva na hta { st with name := some sb } hna⟩
    · subst hkb
      simp at hnb
    · subst hs2 hvb hkb
      exact ⟨{ st with pieces := some pcb }, infoStep_pieces_fwd sb pcb hpcb st hnb,
        infoStep_pl_fwd iva na hta { st with pieces := some pcb } hna⟩
    · subst hs2 hvb hkb
      exact ⟨{ st with file_list := some (.Single nb) }, infoStep_length_fwd ivb nb htb st hnb,
        infoStep_pl_fwd iva na hta { st with file_list := some (.Single nb) } hna⟩
    · subst hs2 hvb hkb
      exact ⟨{ st with file_list := some (.Multiple flb) },
        infoStep_files_fwd lb flb hflb st hnb,
        infoStep_pl_fwd iva na hta { st with file_list := some (.Multiple flb) } hna⟩
  · subst hs1 hva hka
    rcases hB with ⟨hb1, hb2, hb3, hb4, hb5, hs2⟩ |
      ⟨hkb, hnb, sb, hvb, husb, hs2⟩ |
      ⟨hkb, hnb, ivb, nb, hvb, htb, hs2⟩ |
      ⟨hkb, hnb, sb, pcb, hvb, hpcb, hs2⟩ |
      ⟨hkb, hnb, ivb, nb, hvb, htb, hs2⟩ |
      ⟨hkb, hnb, lb, flb, hvb, hflb, hs2⟩
    · subst hs2
      exact ⟨st, infoStep_unrecognized kb vb hub hb1 hb2 hb3 hb4 hb5 st,
        infoStep_pieces_fwd sa pca hpca st hna⟩
    · subst hs2 hvb hkb
      exact ⟨{ st with name := some sb }, infoStep_name_fwd sb husb st hnb,
        infoStep_pieces_fwd sa pca hpca { st with name := some sb } hna⟩
    · subst hs2 hvb hkb
      exact ⟨{ st with piece_length := some nb }, infoStep_pl_fwd ivb nb htb st hnb,
        infoStep_pieces_fwd sa pca hpca { st with piece_length := some nb } hna⟩
    · subst hkb
      simp at hnb
    · subst hs2 hvb hkb
      exact ⟨{ st with file_list := some (.Single nb) }, infoStep_length_fwd ivb nb htb st hnb,
        infoStep_pieces_fwd sa pca hpca { st with file_list := some (.Single nb) } hna⟩
    · subst hs2 hvb hkb
      exact ⟨{ st with file_list := some (.Multiple flb) },
        infoStep_files_fwd lb flb hflb st hnb,
        infoStep_pieces_fwd sa pca hpca { st with file_list := some (.Multiple flb) } hna⟩
  · subst hs1 hva hka
    rcases hB with ⟨hb1, hb2, hb3, hb4, hb5, hs2⟩ |
      ⟨hkb, hnb, sb, hvb, husb, hs2⟩ |
      ⟨hkb, hnb, ivb, nb, hvb, htb, hs2⟩ |
      ⟨hkb, hnb, sb, pcb, hvb, hpcb, hs2⟩ |
      ⟨hkb, hnb, ivb, nb, hvb, htb, hs2⟩ |
      ⟨hkb, hnb, lb, flb, hvb, hflb, hs2⟩
    · subst hs2
      exact ⟨st, infoStep_unrecognized kb vb hub hb1 hb2 hb3 hb4 hb5 st,
        infoStep_length_fwd iva na hta st hna⟩
    · subst hs2 hvb hkb
      exact ⟨{ st with name := some sb }, infoStep_name_fwd sb husb st hnb,
        infoStep_length_fwd iva na hta { st with name := some sb } hna⟩
    · subst hs2 hvb hkb
      exact ⟨{ st with piece_length := some nb }, infoStep_pl_fwd ivb nb htb st hnb,
        infoStep_length_fwd iva na hta { st with piece_length := some nb } hna⟩
    · subst hs2 hvb hkb
      exact ⟨{ st with pieces := some pcb }, infoStep_pieces_fwd sb pcb hpcb st hnb,
        infoStep_length_fwd iva na hta { st with pieces := some pcb } hna⟩
    · subst hkb
      simp at hnb
    · subst hkb
      simp at hnb
  · subst hs1 hva hka
    rcases hB with ⟨hb1, hb2, hb3, hb4, hb5, hs2⟩ |
      ⟨hkb, hnb, sb, hvb, husb, hs2⟩ |
      ⟨hkb, hnb, ivb, nb, hvb, htb, hs2⟩ |
      ⟨hkb, hnb, sb, pcb, hvb, hpcb, hs2⟩ |
      ⟨hkb, hnb, ivb, nb, hvb, htb, hs2⟩ |
      ⟨hkb, hnb, lb, flb, hvb, hflb, hs2⟩
    · subst hs2
      exact ⟨st, infoStep_unrecognized kb vb hub hb1 hb2 hb3 hb4 hb5 st,
        infoStep_files_fwd la fla hfla st hna⟩
    · subst hs2 hvb hkb
      exact ⟨{ st with name := some sb }, infoStep_name_fwd sb husb st hnb,
        infoStep_files_fwd la fla hfla { st with name := some sb } hna⟩
    · subst hs2 hvb hkb
      exact ⟨{ st with piece_length := some nb }, infoStep_pl_fwd ivb nb htb st hnb,
        infoStep_files_fwd la fla hfla { st with piece_length := some nb } hna⟩
    · subst hs2 hvb hkb
      exact ⟨{ st with pieces := some pcb }, infoStep_pieces_fwd sb pcb hpcb st hnb,
        infoStep_files_fwd la fla hfla { st with pieces := some pcb } hna⟩
    · subst hkb
      simp at hnb
    · subst hkb
      simp at hnb

/-- C5: the schema mappers are order-independent — for any two pair
lists that are permutations of each other, if one maps to a domain value
then so does the other, to the identical value; this holds for the
top-level dictionary, the `info` dictionary, and a `files` entry. -/
theorem order_independence :
    (∀ (l1 l2 : List (List Nat × Bval)), l1.Perm l2 → ∀ t : TorrentFile,
      mapTorrent l1 = .ok t → mapTorrent l2 = .ok t) ∧
    (∀ (l1 l2 : List (List Nat × Bval)), l1.Perm l2 → ∀ mi : MetaFileInfo,
      MetaFileInfo.parse_torrent l1 = .ok mi → MetaFileInfo.parse_torrent l2 = .ok mi) ∧
    (∀ (l1 l2 : List (List Nat × Bval)), l1.Perm l2 → ∀ fi : FileListItem,
      FileListItem.parse_torrent l1 = .ok fi → FileListItem.parse_torrent l2 = .ok fi) := by
  refine ⟨?_, ?_, ?_⟩
  · intro l1 l2 hperm t h
    unfold mapTorrent at h ⊢
    rcases hf : resFold topStep l1 (none, none) with st | e | m <;> rw [hf] at h <;>
      dsimp only at h
    · rw [resFold_perm topStep topStep_comm hperm (none, none) st hf]
      dsimp only
      exact h
    · cases h
    · cases h
  · intro l1 l2 hperm mi h
    unfold MetaFileInfo.parse_torrent at h ⊢
    rcases hf : resFold infoStep l1 ⟨none, none, none, none⟩ with st | e | m <;> rw [hf] at h <;>
      dsimp only at h
    · rw [resFold_perm infoStep infoStep_comm hperm ⟨none, none, none, none⟩ st hf]
      dsimp only
      exact h
    · cases h
    · cases h
  · intro l1 l2 hperm fi h
    unfold FileListItem.parse_torrent at h ⊢
    rcases hf : resFold fileStep l1 ⟨none, none⟩ with st | e | m <;> rw [hf] at h <;>
      dsimp only at h
    · rw [resFold_perm fileStep fileStep_comm hperm ⟨none, none⟩ st hf]
      dsimp only
      exact h
    · cases h
    · cases h

/-- C5 witness: a `files` entry with its two keys swapped decodes to the
same item. -/
theorem order_independence_witness :
    FileListItem.parse_torrent [(keyPath, .list [.bytes [97]]), (keyLength, .int 5)] =
      .ok ⟨5, [[97]]⟩ :=
  order_independence.2.2
    [(keyLength, .int 5), (keyPath, .list [.bytes [97]])]
    [(keyPath, .list [.bytes [97]]), (keyLength, .int 5)]
    (List.Perm.swap ((keyPath, Bval.list [Bval.bytes [97]]) : List Nat × Bval)
      ((keyLength, Bval.int 5) : List Nat × Bval) [])
    ⟨5, [[97]]⟩ rfl
